import Mathlib

/-!
Shallow embedding of the fir AST interpreter (src/interpreter.rs and
src/record_collector.rs) and proofs about it.

Modelling conventions:
* Machine words (`u64`) are modelled as `Nat`; heap addresses are word indices.
* Identifiers (`SmolStr`) are modelled as `String`; byte strings as `List Nat`.
* Fallible execution is modelled by the `Res` result type: `.abort` models a
  Rust panic (`panic!`, failed `assert!`, `todo!`, out-of-bounds indexing),
  `.oof` models running out of the fuel that makes the recursive evaluator
  total.  `debug_assert!` is compiled out in release builds and is modelled
  as a no-op.
* The evaluator is fuelled: every function of the mutually recursive
  evaluator group pattern-matches on the fuel and passes the predecessor to
  every callee, so recursion is structural on the fuel.
* The heap module (heap.rs) is not part of the given sources; its operations
  are modelled from the spec, §4.1 (a linearly growing word array with a bump
  pointer).  String payloads are stored one byte per word so that byte
  offsets coincide with word offsets; only the byte sequences returned by
  `str_bytes`/`str_view_bytes` are observable.
* The built-in function library (builtins.rs) is out of scope of the spec
  (§1); `call_builtin_fun` is modelled as opaque failure, and all theorems
  about calls go through source functions or are conditioned on the result
  of the method-call helper.
-/

namespace Fir

abbrev Word := Nat
abbrev Addr := Nat

/-! Canonical tag assignments, from `generate_tags!` in interpreter.rs. -/

def I32_TYPE_TAG : Word := 0
def STR_TYPE_TAG : Word := 1
def STR_VIEW_TYPE_TAG : Word := 2
def ARRAY_TYPE_TAG : Word := 3
def CONSTR_TYPE_TAG : Word := 4
def TOP_FUN_TYPE_TAG : Word := 5
def ASSOC_FUN_TYPE_TAG : Word := 6
def FIRST_TYPE_TAG : Word := 7

/-! Execution results.  `.abort` is a Rust panic, `.oof` is fuel exhaustion. -/

inductive Res (α : Type) where
  | ok : α → Res α
  | abort : Res α
  | oof : Res α
  deriving DecidableEq, Repr

/-! ### Heap

Modelled from the spec: heap.rs is not under src/.  §4.1: a linearly growing
word array with a bump pointer; `allocate(n)` returns the address of `n`
fresh words, reads and writes are indexed by address and panic out of
bounds. -/

abbrev Heap := List Word

def heapRead (h : Heap) (a : Addr) : Option Word :=
  h[a]?

def heapWrite (h : Heap) (a : Addr) (w : Word) : Option Heap :=
  if a < h.length then some (h.set a w) else none

def allocate (h : Heap) (n : Nat) : Addr × Heap :=
  (h.length, h ++ List.replicate n 0)

def allocate_tag (h : Heap) (t : Word) : Addr × Heap :=
  (h.length, h ++ [t])

/-- Truncate an integer to a signed 32-bit value (`as i32`). -/
def toI32 (i : Int) : Int :=
  let m := i % (2 ^ 32 : Int)
  if m < 2 ^ 31 then m else m - 2 ^ 32

/-- Sign-extend a signed 32-bit value into an unsigned 64-bit word. -/
def i32ToWord (i : Int) : Word :=
  ((toI32 i) % (2 ^ 64 : Int)).toNat

/-- Read a word back as a signed 32-bit value (`heap[a] as i32`). -/
def wordAsI32 (w : Word) : Int :=
  let m : Nat := w % 2 ^ 32
  if m < 2 ^ 31 then (m : Int) else (m : Int) - 2 ^ 32

def allocate_i32 (h : Heap) (i : Int) : Addr × Heap :=
  (h.length, h ++ [I32_TYPE_TAG, i32ToWord i])

def allocate_str (h : Heap) (bs : List Nat) : Addr × Heap :=
  (h.length, h ++ [STR_TYPE_TAG, bs.length] ++ bs)

def allocate_top_fun (h : Heap) (idx : Nat) : Addr × Heap :=
  (h.length, h ++ [TOP_FUN_TYPE_TAG, idx])

def allocate_constr (h : Heap) (tag : Word) : Addr × Heap :=
  (h.length, h ++ [CONSTR_TYPE_TAG, tag])

/-- Modelled from the spec: payload of a `Str` is one word of length plus the
bytes; the byte slice of a non-`Str` value is a structural error (`none`). -/
def str_bytes (h : Heap) (a : Addr) : Option (List Nat) :=
  match heapRead h a with
  | some t =>
    if t = STR_TYPE_TAG then
      match heapRead h (a + 1) with
      | some len =>
        if a + 2 + len ≤ h.length then some ((h.drop (a + 2)).take len) else none
      | none => none
    else none
  | none => none

/-- Modelled from the spec: payload of a `StrView` is backing address, byte
offset and byte length; its bytes are the corresponding slice of the backing
`Str`'s bytes.  A non-`StrView` value is a structural error (`none`). -/
def str_view_bytes (h : Heap) (a : Addr) : Option (List Nat) :=
  match heapRead h a with
  | some t =>
    if t = STR_VIEW_TYPE_TAG then
      match heapRead h (a + 1), heapRead h (a + 2), heapRead h (a + 3) with
      | some backing, some off, some len =>
        match str_bytes h backing with
        | some bs => if off + len ≤ bs.length then some ((bs.drop off).take len) else none
        | none => none
      | _, _, _ => none
    else none
  | none => none

/-- Modelled from the spec and the call sites in `try_bind_pat`: the view
covers the byte range `[start, stop)` of the backing `Str`. -/
def allocate_str_view (h : Heap) (backing : Addr) (start stop : Nat) : Addr × Heap :=
  (h.length, h ++ [STR_VIEW_TYPE_TAG, backing, start, stop - start])

/-- Modelled from the spec and the call sites in `try_bind_pat`: a view of a
view shares the original backing `Str`, with offsets composed. -/
def allocate_str_view_from_str_view (h : Heap) (view : Addr) (start stop : Nat) :
    Option (Addr × Heap) :=
  match heapRead h (view + 1), heapRead h (view + 2) with
  | some backing, some off =>
    some (h.length, h ++ [STR_VIEW_TYPE_TAG, backing, off + start, stop - start])
  | _, _ => none

/-! ### Association lists

`collections::Map` is not under src/; it is modelled from its use sites as a
finite map with overwriting insert. -/

def lookupA {α β : Type} [DecidableEq α] (m : List (α × β)) (k : α) : Option β :=
  (m.find? (fun p => decide (p.1 = k))).map (·.2)

def eraseA {α β : Type} [DecidableEq α] (k : α) (m : List (α × β)) : List (α × β) :=
  m.filter (fun p => decide (p.1 ≠ k))

def insertA {α β : Type} [DecidableEq α] (k : α) (v : β) (m : List (α × β)) :
    List (α × β) :=
  (k, v) :: eraseA k m

def extendA {α β : Type} [DecidableEq α] (m binds : List (α × β)) : List (α × β) :=
  binds.foldl (fun acc p => insertA p.1 p.2 acc) m

abbrev Locals := List (String × Addr)
abbrev Binds := List (String × Addr)

/-! ### Identifier ordering

`SmolStr` sorts by byte order; on identifiers this is the lexicographic
order on the characters, modelled through the linear order on `List Char`. -/

def identLe (x y : String) : Prop := x.data ≤ y.data

instance : DecidableRel identLe := fun x y => inferInstanceAs (Decidable (x.data ≤ y.data))

instance : IsTotal String identLe := ⟨fun x y => le_total x.data y.data⟩

instance : IsTrans String identLe := ⟨fun _ _ _ h1 h2 => le_trans h1 h2⟩

instance : IsAntisymm String identLe :=
  ⟨fun x y h1 h2 => by
    cases x; cases y
    exact congrArg String.mk (le_antisymm h1 h2)⟩

/-! ### Record shapes (record_collector.rs) -/

inductive RecordShape where
  | unnamedFields (arity : Nat)
  | namedFields (fields : List String)
  deriving DecidableEq, Repr

/-- The name-collection loop of `RecordShape::from_named_things`: every thing
must be named (`unwrap`) and no name may repeat (`assert!(new)`); panics are
`none`. -/
def collectNames : List (Option String) → List String → Option (List String)
  | [], acc => some acc
  | none :: _, _ => none
  | some s :: rest, acc => if s ∈ acc then none else collectNames rest (acc ++ [s])

/-- `RecordShape::from_named_things` (record_collector.rs).  Returns `none`
where the Rust code panics. -/
def RecordShape.from_named_things {α : Type} (things : List (Option String × α)) :
    Option RecordShape :=
  match things with
  | [] => some (.unnamedFields 0)
  | first :: _ =>
    match first.1 with
    | some _ =>
      match collectNames (things.map (·.1)) [] with
      | some names => some (.namedFields (List.insertionSort identLe names))
      | none => none
    | none => some (.unnamedFields things.length)

/-! ### AST (the `ast` module is an input; shapes follow spec §6 and the use
sites in interpreter.rs).  `ast::Named`/`ast::CallArg` are modelled as pairs
`(name?, node)`. -/

inductive BinOp where
  | add | subtract | multiply | equal | notEqual | lt | gt | ltEq | gtEq | and | or
  deriving DecidableEq, Repr

inductive UnOp where
  | not
  deriving DecidableEq, Repr

inductive AssignOp where
  | eq | plusEq | minusEq
  deriving DecidableEq, Repr

inductive Pat where
  | var (name : String)
  | ignore
  | constr (type_ : String) (constr : Option String) (fields : List (Option String × Pat))
  | record (fields : List (Option String × Pat))
  | str (s : List Nat)
  | strPfx (pfx : List Nat) (var : String)
  | or (p1 p2 : Pat)

mutual

inductive StringPart where
  | strP (s : List Nat)
  | exprP (e : Expr)

inductive Expr where
  | var (name : String)
  | upperVar (name : String)
  | fieldSelect (object : Expr) (field : String)
  | constrSelect (ty : String) (constr : String)
  | call (fn : Expr) (args : List (Option String × Expr))
  | int (i : Int)
  | str (parts : List StringPart)
  | self_
  | binOp (left right : Expr) (op : BinOp)
  | unOp (op : UnOp) (e : Expr)
  | arrayIndex (array index : Expr)
  | record (fields : List (Option String × Expr))
  | range (lo hi : Expr) (inclusive : Bool)
  | ret (e : Expr)
  | match_ (scrutinee : Expr) (alts : List (Pat × Option Expr × List Stmt))
  | if_ (branches : List (Expr × List Stmt)) (else_branch : Option (List Stmt))

inductive Stmt where
  | letS (lhs : Pat) (rhs : Expr)
  | assign (lhs rhs : Expr) (op : AssignOp)
  | expr (e : Expr)
  | while_ (cond : Expr) (body : List Stmt)
  | for_ (var : String) (e : Expr) (body : List Stmt)

end

/-- `ast::FunDecl` (semantically relevant fields; parameter and return types
do not affect evaluation). -/
structure FunDecl where
  name : String
  self_ : Bool
  params : List String
  body : List Stmt

/-- `FunDecl::num_params` includes the implicit `self` slot. -/
def FunDecl.num_params (f : FunDecl) : Nat :=
  f.params.length + (if f.self_ then 1 else 0)

/-! ### Program tables (struct `Pgm` and friends, interpreter.rs) -/

inductive Fields where
  | unnamed (n : Nat)
  | named (fields : List String)
  deriving DecidableEq, Repr

def Fields.is_empty : Fields → Bool
  | .unnamed 0 => true
  | _ => false

/-- `Fields::find_named_field_idx`; `none` where the Rust code panics. -/
def Fields.find_named_field_idx : Fields → String → Option Nat
  | .unnamed _, _ => none
  | .named fields, name => fields.findIdx? (fun f => decide (f = name))

structure ValCon where
  name : Option String
  fields : Fields
  deriving DecidableEq, Repr

structure TyCon where
  value_constrs : List ValCon
  type_tag : Word
  deriving DecidableEq, Repr

/-- `TyCon::tag_range` (inclusive).  The `u64` expression
`type_tag + value_constrs.len() - 1` wraps in release builds (debug builds
panic on overflow), so for a built-in type with no constructors the upper
bound wraps around to `u64::MAX` and every tag lies inside the range. -/
def TyCon.tag_range (tc : TyCon) : Word × Word :=
  (tc.type_tag,
    ((tc.type_tag + tc.value_constrs.length) % 2 ^ 64 + (2 ^ 64 - 1)) % 2 ^ 64)

/-- `TyCon::get_constr_with_tag`; `none` where the Rust code panics. -/
def TyCon.get_constr_with_tag (tc : TyCon) (name : String) : Option (Word × Fields) :=
  (tc.value_constrs.enum.find? (fun p => decide (p.2.name = some name))).map
    (fun p => (tc.type_tag + p.1, p.2.fields))

inductive ConInfo where
  | namedInfo (ty_name : String) (con_name : Option String)
  | recordInfo (shape : RecordShape)
  deriving DecidableEq, Repr

structure Con where
  info : ConInfo
  fields : Fields
  alloc : Option Addr
  deriving DecidableEq, Repr

/-- `BuiltinFun` handles are opaque: builtins.rs is outside the spec's
scope. -/
structure BuiltinFun where
  id : Nat
  deriving DecidableEq, Repr

inductive FunKind where
  | builtin (b : BuiltinFun)
  | source (decl : FunDecl)

structure Fun where
  idx : Nat
  kind : FunKind

structure Pgm where
  ty_cons : List (String × TyCon)
  cons_by_tag : List Con
  record_ty_tags : List (RecordShape × Word)
  associated_funs : List (List (String × Fun))
  top_level_funs : List (String × Fun)
  top_level_funs_by_idx : List Fun
  true_alloc : Addr
  false_alloc : Addr

/-- `Pgm::get_tag_fields`; `none` where the Rust indexing panics. -/
def Pgm.get_tag_fields (p : Pgm) (tag : Word) : Option Fields :=
  (p.cons_by_tag[tag]?).map (·.fields)

def Pgm.bool_alloc (p : Pgm) (b : Bool) : Addr :=
  if b then p.true_alloc else p.false_alloc

inductive ControlFlow where
  | val (a : Addr)
  | ret (a : Addr)
  deriving DecidableEq, Repr

/-! ### Small pure helpers used by the evaluator -/

/-- The `val!` macro: propagate `Ret` (and panics / fuel exhaustion),
continue on `Val`. -/
def valBind (r : Res (ControlFlow × Heap × Locals))
    (k : Addr → Heap → Locals → Res (ControlFlow × Heap × Locals)) :
    Res (ControlFlow × Heap × Locals) :=
  match r with
  | .ok (.val a, h, l) => k a h l
  | .ok (.ret a, h, l) => .ok (.ret a, h, l)
  | .abort => .abort
  | .oof => .oof

/-- Intermediate result of a loop inside `eval`: either a propagated `Ret`
(with the heap and locals at that point) or the loop's product. -/
inductive PRes (α : Type) where
  | ret (a : Addr) (h : Heap) (l : Locals)
  | val (v : α) (h : Heap) (l : Locals)
  deriving DecidableEq

/-- `val!` inside a loop that produces a `PRes`. -/
def valBindP {α : Type} (r : Res (ControlFlow × Heap × Locals))
    (k : Addr → Heap → Locals → Res (PRes α)) : Res (PRes α) :=
  match r with
  | .ok (.val a, h, l) => k a h l
  | .ok (.ret a, h, l) => .ok (.ret a h l)
  | .abort => .abort
  | .oof => .oof

/-- The enumerate-and-find in `Expr::ConstrSelect` and `try_bind_pat`:
`constr.name.as_ref().unwrap() == constr_name`, so a nameless constructor
found while scanning panics (`none`), as does an unsuccessful search. -/
def findConstrIdxStrict : List ValCon → String → Nat → Option (Nat × ValCon)
  | [], _, _ => none
  | c :: rest, nm, i =>
    match c.name with
    | none => none
    | some n => if n = nm then some (i, c) else findConstrIdxStrict rest nm (i + 1)

/-- The enumerate-and-find in `allocate_object_from_names`:
`constr.name.as_ref() == Some(&constr_name)` (no unwrap while scanning). -/
def findConstrIdxOpt : List ValCon → String → Nat → Option (Nat × ValCon)
  | [], _, _ => none
  | c :: rest, nm, i =>
    if c.name = some nm then some (i, c) else findConstrIdxOpt rest nm (i + 1)

/-- The `find_map` over record-literal fields in `eval`'s `Record` case;
scanning a nameless field panics (`none`), an unsuccessful search is
`some none` (whose `unwrap` the caller turns into a panic as well). -/
def findExprByName : List (Option String × Expr) → String → Option (Option Expr)
  | [], _ => some none
  | (none, _) :: _, _ => none
  | (some n, e) :: rest, nm =>
    if n = nm then some (some e) else findExprByName rest nm

/-- The find in `try_bind_field_pats` (named case):
`f.name.as_ref().unwrap() == field_name`; both a nameless field pattern and
an unsuccessful search panic. -/
def findPatByName : List (Option String × Pat) → String → Option Pat
  | [], _ => none
  | (none, _) :: _, _ => none
  | (some n, fp) :: rest, nm =>
    if n = nm then some fp else findPatByName rest nm

/-- `names` collection in `eval`'s `Record` case:
`exprs.iter().map(|Named{name, ..}| name.as_ref().unwrap().clone())`. -/
def mapNamesUnwrap {α : Type} : List (Option String × α) → Option (List String)
  | [] => some []
  | (none, _) :: _ => none
  | (some n, _) :: rest => (mapNamesUnwrap rest).map (n :: ·)

/-- Per-name lookups `named_values.get(name).unwrap()` in
`allocate_object_from_tag`. -/
def lookupAll (m : Binds) : List String → Option (List Addr)
  | [] => some []
  | n :: rest =>
    match lookupA m n with
    | none => none
    | some v => (lookupAll m rest).map (v :: ·)

/-- Parameter binding in `call_source_fun`: each insert asserts the name was
unbound; running out of arguments models the `args[arg_idx]` panic. -/
def bindParams : List String → List Addr → Locals → Option Locals
  | [], _, acc => some acc
  | pn :: ps, a :: rest, acc =>
    match lookupA acc pn with
    | some _ => none
    | none => bindParams ps rest (insertA pn a acc)
  | _ :: _, [], _ => none

/-- The tag write and field-storing loop at the end of
`allocate_object_from_tag` (the object is sized by the argument count). -/
def writeFields (h : Heap) (a : Addr) : List Word → Option Heap
  | [] => some h
  | w :: rest =>
    match heapWrite h a w with
    | none => none
    | some h' => writeFields h' (a + 1) rest

def finishAlloc (h : Heap) (l : Locals) (constr_tag : Word) (nargs : Nat)
    (arg_values : List Addr) : Res (ControlFlow × Heap × Locals) :=
  let (object, h₁) := allocate h (1 + nargs)
  match heapWrite h₁ object constr_tag with
  | none => .abort
  | some h₂ =>
    match writeFields h₂ (object + 1) arg_values with
    | none => .abort
    | some h₃ => .ok (.val object, h₃, l)

/-- `call_builtin_fun` (builtins.rs).  Modelled from the spec: the concrete
built-in library is deliberately out of scope (§1), so built-in dispatch is
left opaque; theorems about method calls are stated for source functions or
conditioned on the call's result. -/
def call_builtin_fun (_p : Pgm) (_h : Heap) (_b : BuiltinFun) (_args : List Addr) :
    Res (Addr × Heap) :=
  .abort

/-! ### The evaluator (interpreter.rs)

All functions take fuel as their first argument; `.oof` is returned when it
runs out, and every callee receives the predecessor, which makes the mutual
recursion structural.  The heap and the local environment, mutated in place
in Rust, are threaded explicitly.  The caller-provided writer is only ever
passed to built-ins, which are opaque here, so it is omitted. -/

set_option maxHeartbeats 3200000

mutual

/-- `eval` (interpreter.rs). -/
def eval (fuel : Nat) (p : Pgm) (h : Heap) (l : Locals) (e : Expr) :
    Res (ControlFlow × Heap × Locals) :=
  match fuel with
  | 0 => .oof
  | fuel + 1 =>
    match e with
    | .var v =>
      match lookupA l v with
      | some value => .ok (.val value, h, l)
      | none =>
        match lookupA p.top_level_funs v with
        | some top_fun =>
          let (a, h') := allocate_top_fun h top_fun.idx
          .ok (.val a, h', l)
        | none => .abort
    | .upperVar ty_name =>
      match lookupA p.ty_cons ty_name with
      | none => .abort
      | some ty_con =>
        let (first_tag, last_tag) := ty_con.tag_range
        if first_tag = last_tag then
          let (a, h') := allocate_constr h ty_con.type_tag
          .ok (.val a, h', l)
        else .abort
    | .fieldSelect object field =>
      valBind (eval fuel p h l object) fun object_v h l =>
        match heapRead h object_v with
        | none => .abort
        | some object_tag =>
          match p.get_tag_fields object_tag with
          | none => .abort
          | some (.unnamed _) => .abort
          | some (.named fields) =>
            match fields.findIdx? (fun f => decide (f = field)) with
            | none => .abort
            | some field_idx =>
              match heapRead h (object_v + 1 + field_idx) with
              | some w => .ok (.val w, h, l)
              | none => .abort
    | .constrSelect ty constr_name =>
      match lookupA p.ty_cons ty with
      | none => .abort
      | some ty_con =>
        match findConstrIdxStrict ty_con.value_constrs constr_name 0 with
        | none => .abort
        | some (constr_idx, constr) =>
          let tag := ty_con.type_tag + constr_idx
          if constr.fields.is_empty then
            let (addr, h₁) := allocate h 1
            match heapWrite h₁ addr tag with
            | some h₂ => .ok (.val addr, h₂, l)
            | none => .abort
          else
            let (addr, h₁) := allocate_constr h tag
            .ok (.val addr, h₁, l)
    | .call fn args =>
      match fn with
      | .var v =>
        match lookupA l v with
        | some fval => callDispatch fuel p h l fval args
        | none =>
          match lookupA p.top_level_funs v with
          | some f =>
            match evalArgs fuel p h l args false [] with
            | .ok (.ret a h' l') => .ok (.ret a, h', l')
            | .ok (.val arg_values h' l') =>
              match callFn fuel p h' f arg_values with
              | .ok (r, h'') => .ok (.val r, h'', l')
              | .abort => .abort
              | .oof => .oof
            | .abort => .abort
            | .oof => .oof
          | none =>
            valBind (eval fuel p h l (.var v)) fun fval h l =>
              callDispatch fuel p h l fval args
      | .fieldSelect object field =>
        match object with
        | .upperVar ty =>
          match lookupA p.ty_cons ty with
          | none => .abort
          | some ty_con =>
            match field.data with
            | [] => .abort
            | c :: _ =>
              if c.isUpper then
                allocate_object_from_names fuel p h l ty (some field) args
              else
                match p.associated_funs[ty_con.type_tag]? with
                | none => .abort
                | some funs =>
                  match lookupA funs field with
                  | none => .abort
                  | some f =>
                    match evalArgs fuel p h l args false [] with
                    | .ok (.ret a h' l') => .ok (.ret a, h', l')
                    | .ok (.val arg_vals h' l') =>
                      match callFn fuel p h' f arg_vals with
                      | .ok (r, h'') => .ok (.val r, h'', l')
                      | .abort => .abort
                      | .oof => .oof
                    | .abort => .abort
                    | .oof => .oof
        | _ =>
          valBind (eval fuel p h l object) fun object_v h l =>
            match heapRead h object_v with
            | none => .abort
            | some object_tag =>
              match p.associated_funs[object_tag]? with
              | none => .abort
              | some funs =>
                match lookupA funs field with
                | none => .abort
                | some f =>
                  match evalArgs fuel p h l args false [] with
                  | .ok (.ret a h' l') => .ok (.ret a, h', l')
                  | .ok (.val arg_vals h' l') =>
                    match callFn fuel p h' f (object_v :: arg_vals) with
                    | .ok (r, h'') => .ok (.val r, h'', l')
                    | .abort => .abort
                    | .oof => .oof
                  | .abort => .abort
                  | .oof => .oof
      | .upperVar ty =>
        allocate_object_from_names fuel p h l ty none args
      | _ =>
        valBind (eval fuel p h l fn) fun fval h l =>
          callDispatch fuel p h l fval args
    | .int i =>
      let (a, h') := allocate_i32 h i
      .ok (.val a, h', l)
    | .str parts =>
      match evalStringParts fuel p h l parts [] with
      | .ok (.val bytes h' l') =>
        let (a, h'') := allocate_str h' bytes
        .ok (.val a, h'', l')
      | .ok (.ret a h' l') => .ok (.ret a, h', l')
      | .abort => .abort
      | .oof => .oof
    | .self_ =>
      match lookupA l "self" with
      | some a => .ok (.val a, h, l)
      | none => .abort
    | .binOp left right op =>
      valBind (eval fuel p h l left) fun left_v h l =>
      valBind (eval fuel p h l right) fun right_v h l =>
        match op with
        | .equal =>
          match eq fuel p h left_v right_v with
          | .ok (b, h') => .ok (.val (p.bool_alloc b), h', l)
          | .abort => .abort
          | .oof => .oof
        | .notEqual =>
          match eq fuel p h left_v right_v with
          | .ok (b, h') => .ok (.val (p.bool_alloc (!b)), h', l)
          | .abort => .abort
          | .oof => .oof
        | .lt =>
          match cmp fuel p h left_v right_v with
          | .ok (ord, h') => .ok (.val (p.bool_alloc (ord = .lt)), h', l)
          | .abort => .abort
          | .oof => .oof
        | .gt =>
          match cmp fuel p h left_v right_v with
          | .ok (ord, h') => .ok (.val (p.bool_alloc (ord = .gt)), h', l)
          | .abort => .abort
          | .oof => .oof
        | .ltEq =>
          match cmp fuel p h left_v right_v with
          | .ok (ord, h') =>
            .ok (.val (p.bool_alloc (ord = .lt || ord = .eq)), h', l)
          | .abort => .abort
          | .oof => .oof
        | .gtEq =>
          match cmp fuel p h left_v right_v with
          | .ok (ord, h') =>
            .ok (.val (p.bool_alloc (ord = .gt || ord = .eq)), h', l)
          | .abort => .abort
          | .oof => .oof
        | .add =>
          match call_method fuel p h left_v "__add" [right_v] with
          | .ok (r, h') => .ok (.val r, h', l)
          | .abort => .abort
          | .oof => .oof
        | .subtract =>
          match call_method fuel p h left_v "__sub" [right_v] with
          | .ok (r, h') => .ok (.val r, h', l)
          | .abort => .abort
          | .oof => .oof
        | .multiply =>
          match call_method fuel p h left_v "__mul" [right_v] with
          | .ok (r, h') => .ok (.val r, h', l)
          | .abort => .abort
          | .oof => .oof
        | .and =>
          match call_method fuel p h left_v "__and" [right_v] with
          | .ok (r, h') => .ok (.val r, h', l)
          | .abort => .abort
          | .oof => .oof
        | .or =>
          match call_method fuel p h left_v "__or" [right_v] with
          | .ok (r, h') => .ok (.val r, h', l)
          | .abort => .abort
          | .oof => .oof
    | .unOp op e1 =>
      valBind (eval fuel p h l e1) fun v h l =>
        match op with
        | .not => .ok (.val (p.bool_alloc (decide (v = p.false_alloc))), h, l)
    | .arrayIndex array index =>
      valBind (eval fuel p h l array) fun array_v h l =>
      valBind (eval fuel p h l index) fun index_boxed h l =>
        match heapRead h (index_boxed + 1) with
        | none => .abort
        | some index_w =>
          match heapRead h (array_v + 1) with
          | none => .abort
          | some array_len =>
            if index_w ≥ array_len then .abort
            else
              match heapRead h (array_v + 2 + index_w) with
              | some w => .ok (.val w, h, l)
              | none => .abort
    | .record exprs =>
      match RecordShape.from_named_things exprs with
      | none => .abort
      | some shape =>
        match lookupA p.record_ty_tags shape with
        | none => .abort
        | some type_tag =>
          let (record, h₁) := allocate h (exprs.length + 1)
          match heapWrite h₁ record type_tag with
          | none => .abort
          | some h₂ =>
            match exprs.head? with
            | some first =>
              if first.1.isSome then
                match heapWrite h₂ record type_tag with
                | none => .abort
                | some h₃ =>
                  match mapNamesUnwrap exprs with
                  | none => .abort
                  | some names0 =>
                    match
                      evalRecordNamed fuel p h₃ l record exprs
                        (List.insertionSort identLe names0) 0
                    with
                    | .ok (.val _ h' l') => .ok (.val record, h', l')
                    | .ok (.ret a h' l') => .ok (.ret a, h', l')
                    | .abort => .abort
                    | .oof => .oof
              else
                match evalRecordUnnamed fuel p h₂ l record exprs 0 with
                | .ok (.val _ h' l') => .ok (.val record, h', l')
                | .ok (.ret a h' l') => .ok (.ret a, h', l')
                | .abort => .abort
                | .oof => .oof
            | none =>
              match evalRecordUnnamed fuel p h₂ l record exprs 0 with
              | .ok (.val _ h' l') => .ok (.val record, h', l')
              | .ok (.ret a h' l') => .ok (.ret a, h', l')
              | .abort => .abort
              | .oof => .oof
    | .range _ _ _ => .abort
    | .ret e1 =>
      valBind (eval fuel p h l e1) fun v h l => .ok (.ret v, h, l)
    | .match_ scrutinee alts =>
      valBind (eval fuel p h l scrutinee) fun scrut h l =>
        evalMatchAlts fuel p h l scrut alts
    | .if_ branches else_branch =>
      evalIfBranches fuel p h l branches else_branch

termination_by structural fuel

/-- Argument-evaluation loops inside `eval`'s `Call` case; the flag models
the `assert!(arg.name.is_none())` present in some of them. -/
def evalArgs (fuel : Nat) (p : Pgm) (h : Heap) (l : Locals) (args : List (Option String × Expr)) (assertUnnamed : Bool) (acc : List Addr) :
    Res (PRes (List Addr)) :=
  match fuel with
  | 0 => .oof
  | fuel + 1 =>
    match args with
    | [] => .ok (.val acc h l)
    | (name, e1) :: rest =>
      if assertUnnamed && name.isSome then .abort
      else
        valBindP (eval fuel p h l e1) fun v h l =>
          evalArgs fuel p h l rest assertUnnamed (acc ++ [v])

termination_by structural fuel

/-- The named-argument loop of `allocate_object_from_tag`. -/
def evalNamedArgs (fuel : Nat) (p : Pgm) (h : Heap) (l : Locals) (args : List (Option String × Expr)) (acc : Binds) :
    Res (PRes Binds) :=
  match fuel with
  | 0 => .oof
  | fuel + 1 =>
    match args with
    | [] => .ok (.val acc h l)
    | (name?, e1) :: rest =>
      match name? with
      | none => .abort
      | some nm =>
        valBindP (eval fuel p h l e1) fun v h l =>
          match lookupA acc nm with
          | some _ => .abort
          | none => evalNamedArgs fuel p h l rest (insertA nm v acc)

termination_by structural fuel

/-- The sorted-name field loop of `eval`'s `Record` case (named fields). -/
def evalRecordNamed (fuel : Nat) (p : Pgm) (h : Heap) (l : Locals) (record : Addr) (exprs : List (Option String × Expr)) (names : List String) (name_idx : Nat) :
    Res (PRes Unit) :=
  match fuel with
  | 0 => .oof
  | fuel + 1 =>
    match names with
    | [] => .ok (.val () h l)
    | name_ :: rest =>
      match findExprByName exprs name_ with
      | none => .abort
      | some none => .abort
      | some (some e1) =>
        valBindP (eval fuel p h l e1) fun value h l =>
          match heapWrite h (record + name_idx + 1) value with
          | none => .abort
          | some h' => evalRecordNamed fuel p h' l record exprs rest (name_idx + 1)

termination_by structural fuel

/-- The positional field loop of `eval`'s `Record` case (unnamed fields). -/
def evalRecordUnnamed (fuel : Nat) (p : Pgm) (h : Heap) (l : Locals) (record : Addr) (exprs : List (Option String × Expr)) (idx : Nat) :
    Res (PRes Unit) :=
  match fuel with
  | 0 => .oof
  | fuel + 1 =>
    match exprs with
    | [] => .ok (.val () h l)
    | (_, e1) :: rest =>
      valBindP (eval fuel p h l e1) fun value h l =>
        match heapWrite h (record + idx + 1) value with
        | none => .abort
        | some h' => evalRecordUnnamed fuel p h' l record rest (idx + 1)

termination_by structural fuel

/-- The interpolation loop of `eval`'s `String` case. -/
def evalStringParts (fuel : Nat) (p : Pgm) (h : Heap) (l : Locals) (parts : List StringPart) (bytes : List Nat) :
    Res (PRes (List Nat)) :=
  match fuel with
  | 0 => .oof
  | fuel + 1 =>
    match parts with
    | [] => .ok (.val bytes h l)
    | .strP s :: rest => evalStringParts fuel p h l rest (bytes ++ s)
    | .exprP e1 :: rest =>
      valBindP (eval fuel p h l e1) fun part_val h l =>
        match call_method fuel p h part_val "toStr" [] with
        | .ok (part_str_val, h') =>
          match heapRead h' part_str_val with
          | none => .abort
          | some t =>
            if t = STR_TYPE_TAG then
              match str_bytes h' part_str_val with
              | some part_bytes => evalStringParts fuel p h' l rest (bytes ++ part_bytes)
              | none => .abort
            else .abort
        | .abort => .abort
        | .oof => .oof

termination_by structural fuel

/-- The `heap[fun]` tag dispatch at the end of `eval`'s `Call` case. -/
def callDispatch (fuel : Nat) (p : Pgm) (h : Heap) (l : Locals) (fval : Addr) (args : List (Option String × Expr)) :
    Res (ControlFlow × Heap × Locals) :=
  match fuel with
  | 0 => .oof
  | fuel + 1 =>
    match heapRead h fval with
    | none => .abort
    | some t =>
      if t = CONSTR_TYPE_TAG then
        match heapRead h (fval + 1) with
        | none => .abort
        | some constr_tag => allocate_object_from_tag fuel p h l constr_tag args
      else if t = TOP_FUN_TYPE_TAG then
        match heapRead h (fval + 1) with
        | none => .abort
        | some top_fun_idx =>
          match p.top_level_funs_by_idx[top_fun_idx]? with
          | none => .abort
          | some top_fun =>
            match evalArgs fuel p h l args true [] with
            | .ok (.ret a h' l') => .ok (.ret a, h', l')
            | .ok (.val arg_values h' l') =>
              match callFn fuel p h' top_fun arg_values with
              | .ok (r, h'') => .ok (.val r, h'', l')
              | .abort => .abort
              | .oof => .oof
            | .abort => .abort
            | .oof => .oof
      else .abort

termination_by structural fuel

/-- `allocate_object_from_names` (interpreter.rs). -/
def allocate_object_from_names (fuel : Nat) (p : Pgm) (h : Heap) (l : Locals) (ty : String) (constr_name? : Option String) (args : List (Option String × Expr)) :
    Res (ControlFlow × Heap × Locals) :=
  match fuel with
  | 0 => .oof
  | fuel + 1 =>
    match lookupA p.ty_cons ty with
    | none => .abort
    | some ty_con =>
      match constr_name? with
      | some constr_name =>
        match findConstrIdxOpt ty_con.value_constrs constr_name 0 with
        | none => .abort
        | some (constr_idx, _) =>
          allocate_object_from_tag fuel p h l (ty_con.type_tag + constr_idx) args
      | none =>
        if ty_con.value_constrs.length = 1 then
          allocate_object_from_tag fuel p h l ty_con.type_tag args
        else .abort

termination_by structural fuel

/-- `allocate_object_from_tag` (interpreter.rs). -/
def allocate_object_from_tag (fuel : Nat) (p : Pgm) (h : Heap) (l : Locals) (constr_tag : Word) (args : List (Option String × Expr)) :
    Res (ControlFlow × Heap × Locals) :=
  match fuel with
  | 0 => .oof
  | fuel + 1 =>
    match p.get_tag_fields constr_tag with
    | none => .abort
    | some (.unnamed num_fields) =>
      if num_fields = args.length then
        match evalArgs fuel p h l args true [] with
        | .ok (.ret a h' l') => .ok (.ret a, h', l')
        | .ok (.val arg_values h' l') => finishAlloc h' l' constr_tag args.length arg_values
        | .abort => .abort
        | .oof => .oof
      else .abort
    | some (.named field_names) =>
      match evalNamedArgs fuel p h l args [] with
      | .ok (.ret a h' l') => .ok (.ret a, h', l')
      | .ok (.val named_values h' l') =>
        match lookupAll named_values field_names with
        | none => .abort
        | some arg_values => finishAlloc h' l' constr_tag args.length arg_values
      | .abort => .abort
      | .oof => .oof

termination_by structural fuel

/-- `call` (interpreter.rs): dispatch on the function kind. -/
def callFn (fuel : Nat) (p : Pgm) (h : Heap) (f : Fun) (args : List Addr) :
    Res (Addr × Heap) :=
  match fuel with
  | 0 => .oof
  | fuel + 1 =>
    match f.kind with
    | .builtin b => call_builtin_fun p h b args
    | .source decl => call_source_fun fuel p h decl args

termination_by structural fuel

/-- `call_method` (interpreter.rs). -/
def call_method (fuel : Nat) (p : Pgm) (h : Heap) (receiver : Addr) (method : String) (args : List Addr) :
    Res (Addr × Heap) :=
  match fuel with
  | 0 => .oof
  | fuel + 1 =>
    match heapRead h receiver with
    | none => .abort
    | some tag =>
      match p.associated_funs[tag]? with
      | none => .abort
      | some funs =>
        match lookupA funs method with
        | none => .abort
        | some f => callFn fuel p h f (receiver :: args)

termination_by structural fuel

/-- `call_source_fun` (interpreter.rs): the function boundary that absorbs
both `Val` and `Ret` into a plain return value. -/
def call_source_fun (fuel : Nat) (p : Pgm) (h : Heap) (decl : FunDecl) (args : List Addr) :
    Res (Addr × Heap) :=
  match fuel with
  | 0 => .oof
  | fuel + 1 =>
    if decl.num_params = args.length then
      if decl.self_ then
        match args with
        | [] => .abort
        | a0 :: rest =>
          match bindParams decl.params rest (insertA "self" a0 []) with
          | none => .abort
          | some locals =>
            match exec fuel p h locals decl.body 0 with
            | .ok (.val v, h', _) => .ok (v, h')
            | .ok (.ret v, h', _) => .ok (v, h')
            | .abort => .abort
            | .oof => .oof
      else
        match bindParams decl.params args [] with
        | none => .abort
        | some locals =>
          match exec fuel p h locals decl.body 0 with
          | .ok (.val v, h', _) => .ok (v, h')
          | .ok (.ret v, h', _) => .ok (v, h')
          | .abort => .abort
          | .oof => .oof
    else .abort

termination_by structural fuel

/-- `eq` (interpreter.rs): `__eq` must return one of the two canonical
boolean allocations; truth is address equality with `true_alloc`. -/
def eq (fuel : Nat) (p : Pgm) (h : Heap) (val1 : Addr) (val2 : Addr) :
    Res (Bool × Heap) :=
  match fuel with
  | 0 => .oof
  | fuel + 1 =>
    match call_method fuel p h val1 "__eq" [val2] with
    | .ok (r, h') => .ok (decide (r = p.true_alloc), h')
    | .abort => .abort
    | .oof => .oof

termination_by structural fuel

/-- `cmp` (interpreter.rs). -/
def cmp (fuel : Nat) (p : Pgm) (h : Heap) (val1 : Addr) (val2 : Addr) :
    Res (Ordering × Heap) :=
  match fuel with
  | 0 => .oof
  | fuel + 1 =>
    match call_method fuel p h val1 "__cmp" [val2] with
    | .ok (r, h') =>
      match heapRead h' r with
      | none => .abort
      | some ret_tag =>
        match lookupA p.ty_cons "Ordering" with
        | none => .abort
        | some oc =>
          if oc.value_constrs.length = 3 then
            match oc.get_constr_with_tag "Less", oc.get_constr_with_tag "Equal",
                oc.get_constr_with_tag "Greater" with
            | some (less_tag, _), some (eq_tag, _), some (greater_tag, _) =>
              if ret_tag = less_tag then .ok (.lt, h')
              else if ret_tag = eq_tag then .ok (.eq, h')
              else if ret_tag = greater_tag then .ok (.gt, h')
              else .abort
            | _, _, _ => .abort
          else .abort
    | .abort => .abort
    | .oof => .oof

termination_by structural fuel

/-- The branch loop of `eval`'s `If` case: a branch is taken exactly when
its condition's address equals the canonical `True` allocation. -/
def evalIfBranches (fuel : Nat) (p : Pgm) (h : Heap) (l : Locals) (branches : List (Expr × List Stmt)) (else_branch : Option (List Stmt)) :
    Res (ControlFlow × Heap × Locals) :=
  match fuel with
  | 0 => .oof
  | fuel + 1 =>
    match branches with
    | [] =>
      match else_branch with
      | some stmts => exec fuel p h l stmts 0
      | none => .ok (.val 0, h, l)
    | (cond, stmts) :: rest =>
      valBind (eval fuel p h l cond) fun c h l =>
        if c = p.true_alloc then exec fuel p h l stmts 0
        else evalIfBranches fuel p h l rest else_branch

termination_by structural fuel

/-- The alternative loop of `eval`'s `Match` case. -/
def evalMatchAlts (fuel : Nat) (p : Pgm) (h : Heap) (l : Locals) (scrut : Addr) (alts : List (Pat × Option Expr × List Stmt)) :
    Res (ControlFlow × Heap × Locals) :=
  match fuel with
  | 0 => .oof
  | fuel + 1 =>
    match alts with
    | [] => .abort
    | (pattern, guard, rhs) :: rest =>
      match guard with
      | some _ => .abort
      | none =>
        match try_bind_pat fuel p h pattern scrut with
        | .ok (some binds, h₁) => exec fuel p h₁ (extendA l binds) rhs 0
        | .ok (none, h₁) => evalMatchAlts fuel p h₁ l scrut rest
        | .abort => .abort
        | .oof => .oof

termination_by structural fuel

/-- `exec` (interpreter.rs); the accumulator is the running `return_value`
(initially `0`). -/
def exec (fuel : Nat) (p : Pgm) (h : Heap) (l : Locals) (stmts : List Stmt) (return_value : Addr) :
    Res (ControlFlow × Heap × Locals) :=
  match fuel with
  | 0 => .oof
  | fuel + 1 =>
    match stmts with
    | [] => .ok (.val return_value, h, l)
    | stmt :: rest =>
      match execStmt fuel p h l stmt with
      | .ok (.val v, h', l') => exec fuel p h' l' rest v
      | .ok (.ret a, h', l') => .ok (.ret a, h', l')
      | .abort => .abort
      | .oof => .oof

termination_by structural fuel

/-- One arm of the statement match inside `exec`. -/
def execStmt (fuel : Nat) (p : Pgm) (h : Heap) (l : Locals) (stmt : Stmt) :
    Res (ControlFlow × Heap × Locals) :=
  match fuel with
  | 0 => .oof
  | fuel + 1 =>
    match stmt with
    | .letS lhs rhs =>
      valBind (eval fuel p h l rhs) fun v h l =>
        match try_bind_pat fuel p h lhs v with
        | .ok (some binds, h₁) => .ok (.val v, h₁, extendA l binds)
        | .ok (none, _) => .abort
        | .abort => .abort
        | .oof => .oof
    | .assign lhs rhs op =>
      valBind (eval fuel p h l rhs) fun rhs_v h l =>
        assign fuel p h l lhs rhs_v op
    | .expr e1 => eval fuel p h l e1
    | .while_ cond body => whileLoop fuel p h l cond body
    | .for_ v e1 body =>
      match e1 with
      | .range lo hi inclusive =>
        valBind (eval fuel p h l lo) fun lo_v h l =>
          match heapRead h (lo_v + 1) with
          | none => .abort
          | some lo_w =>
            valBind (eval fuel p h l hi) fun hi_v h l =>
              match heapRead h (hi_v + 1) with
              | none => .abort
              | some hi_w =>
                forLoop fuel p h l v (wordAsI32 lo_w) (wordAsI32 hi_w) inclusive body
      | _ => .abort

termination_by structural fuel

/-- The iteration of the `For` arm of `exec`: bind a fresh `I32` box to the
variable, run the body, and remove the binding on every exit. -/
def forLoop (fuel : Nat) (p : Pgm) (h : Heap) (l : Locals) (v : String) (i : Int) (hi : Int) (inclusive : Bool) (body : List Stmt) :
    Res (ControlFlow × Heap × Locals) :=
  match fuel with
  | 0 => .oof
  | fuel + 1 =>
    if (if inclusive then i ≤ hi else i < hi) then
      let (iter_value, h₁) := allocate_i32 h i
      match exec fuel p h₁ (insertA v iter_value l) body 0 with
      | .ok (.val _, h₂, l₂) => forLoop fuel p h₂ l₂ v (i + 1) hi inclusive body
      | .ok (.ret a, h₂, l₂) => .ok (.ret a, h₂, eraseA v l₂)
      | .abort => .abort
      | .oof => .oof
    else .ok (.val 0, h, eraseA v l)

termination_by structural fuel

/-- The `While` arm of `exec`: the loop exits (with placeholder value `0`)
exactly when the condition's address equals the canonical `False`
allocation. -/
def whileLoop (fuel : Nat) (p : Pgm) (h : Heap) (l : Locals) (cond : Expr) (body : List Stmt) :
    Res (ControlFlow × Heap × Locals) :=
  match fuel with
  | 0 => .oof
  | fuel + 1 =>
    valBind (eval fuel p h l cond) fun c h l =>
      if c = p.false_alloc then .ok (.val 0, h, l)
      else
        match exec fuel p h l body 0 with
        | .ok (.val _, h', l') => whileLoop fuel p h' l' cond body
        | .ok (.ret a, h', l') => .ok (.ret a, h', l')
        | .abort => .abort
        | .oof => .oof

termination_by structural fuel

/-- `assign` (interpreter.rs). -/
def assign (fuel : Nat) (p : Pgm) (h : Heap) (l : Locals) (lhs : Expr) (val : Addr) (op : AssignOp) :
    Res (ControlFlow × Heap × Locals) :=
  match fuel with
  | 0 => .oof
  | fuel + 1 =>
    match lhs with
    | .var v =>
      match op with
      | .eq =>
        match lookupA l v with
        | some _ => .ok (.val val, h, insertA v val l)
        | none => .abort
      | .plusEq => .abort
      | .minusEq => .abort
    | .fieldSelect object field =>
      valBind (eval fuel p h l object) fun object_v h l =>
        match heapRead h object_v with
        | none => .abort
        | some object_tag =>
          match p.cons_by_tag[object_tag]? with
          | none => .abort
          | some object_con =>
            match object_con.fields.find_named_field_idx field with
            | none => .abort
            | some field_idx =>
              match op with
              | .eq =>
                match heapWrite h (object_v + 1 + field_idx) val with
                | some h' => .ok (.val val, h', l)
                | none => .abort
              | .plusEq =>
                match heapRead h (object_v + 1 + field_idx) with
                | none => .abort
                | some field_value =>
                  match call_method fuel p h field_value "__add" [val] with
                  | .ok (new_val, h') =>
                    match heapWrite h' (object_v + 1 + field_idx) new_val with
                    | some h'' => .ok (.val val, h'', l)
                    | none => .abort
                  | .abort => .abort
                  | .oof => .oof
              | .minusEq =>
                match heapRead h (object_v + 1 + field_idx) with
                | none => .abort
                | some field_value =>
                  match call_method fuel p h field_value "__sub" [val] with
                  | .ok (new_val, h') =>
                    match heapWrite h' (object_v + 1 + field_idx) new_val with
                    | some h'' => .ok (.val val, h'', l)
                    | none => .abort
                  | .abort => .abort
                  | .oof => .oof
    | _ => .abort

termination_by structural fuel

/-- `try_bind_pat` (interpreter.rs): `ok (some binds, _)` is a successful
match, `ok (none, _)` a silent failure, `.abort` a panic. -/
def try_bind_pat (fuel : Nat) (p : Pgm) (h : Heap) (pattern : Pat) (value : Addr) :
    Res (Option Binds × Heap) :=
  match fuel with
  | 0 => .oof
  | fuel + 1 =>
    match pattern with
    | .var v => .ok (some [(v, value)], h)
    | .ignore => .ok (some [], h)
    | .constr type_ constr field_pats =>
      match heapRead h value with
      | none => .abort
      | some value_tag =>
        match lookupA p.ty_cons type_ with
        | none => .abort
        | some ty_con =>
          let (first, last) := ty_con.tag_range
          if value_tag < first ∨ value_tag > last then .ok (none, h)
          else
            match constr with
            | some cn =>
              match findConstrIdxStrict ty_con.value_constrs cn 0 with
              | none => .abort
              | some (constr_idx, _) =>
                if value_tag = ty_con.type_tag + constr_idx then
                  match p.get_tag_fields value_tag with
                  | none => .abort
                  | some fields => try_bind_field_pats fuel p h fields field_pats value
                else .ok (none, h)
            | none =>
              if first ≠ last then .ok (none, h)
              else
                if value_tag = ty_con.type_tag then
                  match p.get_tag_fields value_tag with
                  | none => .abort
                  | some fields => try_bind_field_pats fuel p h fields field_pats value
                else .ok (none, h)
    | .record fields =>
      match heapRead h value with
      | none => .abort
      | some value_tag =>
        match p.get_tag_fields value_tag with
        | none => .abort
        | some value_fields => try_bind_field_pats fuel p h value_fields fields value
    | .str s =>
      match heapRead h value with
      | none => .abort
      | some t =>
        match (if t = STR_TYPE_TAG then str_bytes h value else str_view_bytes h value) with
        | none => .abort
        | some value_bytes =>
          if value_bytes = s then .ok (some [], h) else .ok (none, h)
    | .strPfx pfx var =>
      match heapRead h value with
      | none => .abort
      | some t =>
        match (if t = STR_TYPE_TAG then str_bytes h value else str_view_bytes h value) with
        | none => .abort
        | some value_bytes =>
          if pfx.isPrefixOf value_bytes then
            if t = STR_TYPE_TAG then
              let (rest, h') := allocate_str_view h value pfx.length value_bytes.length
              .ok (some [(var, rest)], h')
            else
              match allocate_str_view_from_str_view h value pfx.length value_bytes.length with
              | none => .abort
              | some (rest, h') => .ok (some [(var, rest)], h')
          else .ok (none, h)
    | .or pat1 pat2 =>
      match try_bind_pat fuel p h pat1 value with
      | .ok (some binds, h₁) => .ok (some binds, h₁)
      | .ok (none, h₁) => try_bind_pat fuel p h₁ pat2 value
      | .abort => .abort
      | .oof => .oof

termination_by structural fuel

/-- `try_bind_field_pats` (interpreter.rs). -/
def try_bind_field_pats (fuel : Nat) (p : Pgm) (h : Heap) (constr_fields : Fields) (field_pats : List (Option String × Pat)) (value : Addr) :
    Res (Option Binds × Heap) :=
  match fuel with
  | 0 => .oof
  | fuel + 1 =>
    match constr_fields with
    | .unnamed arity =>
      if arity = field_pats.length then tbfpUnnamed fuel p h field_pats value 0 []
      else .abort
    | .named field_tys =>
      if field_tys.length = field_pats.length then
        tbfpNamed fuel p h field_tys field_pats value 0 []
      else .abort

termination_by structural fuel

/-- The positional loop of `try_bind_field_pats`. -/
def tbfpUnnamed (fuel : Nat) (p : Pgm) (h : Heap) (field_pats : List (Option String × Pat)) (value : Addr) (idx : Nat) (acc : Binds) :
    Res (Option Binds × Heap) :=
  match fuel with
  | 0 => .oof
  | fuel + 1 =>
    match field_pats with
    | [] => .ok (some acc, h)
    | (name?, fp) :: rest =>
      match heapRead h (value + idx + 1) with
      | none => .abort
      | some field_value =>
        match name? with
        | some _ => .abort
        | none =>
          match try_bind_pat fuel p h fp field_value with
          | .ok (some m, h₁) => tbfpUnnamed fuel p h₁ rest value (idx + 1) (extendA acc m)
          | .ok (none, h₁) => .ok (none, h₁)
          | .abort => .abort
          | .oof => .oof

termination_by structural fuel

/-- The by-name loop of `try_bind_field_pats`. -/
def tbfpNamed (fuel : Nat) (p : Pgm) (h : Heap) (field_tys : List String) (field_pats : List (Option String × Pat)) (value : Addr) (field_idx : Nat) (acc : Binds) :
    Res (Option Binds × Heap) :=
  match fuel with
  | 0 => .oof
  | fuel + 1 =>
    match field_tys with
    | [] => .ok (some acc, h)
    | field_name :: rest =>
      match findPatByName field_pats field_name with
      | none => .abort
      | some fp =>
        match heapRead h (value + 1 + field_idx) with
        | none => .abort
        | some fv =>
          match try_bind_pat fuel p h fp fv with
          | .ok (some m, h₁) =>
            tbfpNamed fuel p h₁ rest field_pats value (field_idx + 1) (extendA acc m)
          | .ok (none, h₁) => .ok (none, h₁)
          | .abort => .abort
          | .oof => .oof

termination_by structural fuel
end

/-! ### The canonical-allocation loop of `Pgm::new` (interpreter.rs,
lines 260-296): walk the type constructors in tag order and pre-allocate the
canonical instance of every empty constructor. -/

def buildCons (ty_name : String) : List ValCon → Heap → List Con → List Con × Heap
  | [], h, acc => (acc, h)
  | constr :: rest, h, acc =>
    if constr.fields.is_empty then
      let (a, h') := allocate_tag h acc.length
      buildCons ty_name rest h'
        (acc ++ [⟨.namedInfo ty_name constr.name, constr.fields, some a⟩])
    else
      buildCons ty_name rest h (acc ++ [⟨.namedInfo ty_name constr.name, constr.fields, none⟩])

def buildConsByTag : List (String × TyCon) → Heap → List Con → List Con × Heap
  | [], h, acc => (acc, h)
  | (ty_name, ty_con) :: rest, h, acc =>
    if ty_con.value_constrs.isEmpty then
      buildConsByTag rest h (acc ++ [⟨.namedInfo ty_name none, .unnamed 0, none⟩])
    else
      let (acc', h') := buildCons ty_name ty_con.value_constrs h acc
      buildConsByTag rest h' acc'

/-! ### Specification model of record-literal evaluation

Modelled from the spec's words (§4.4 Record literal and §5): compute the
shape, look up the tag, allocate `1 + n` words, write the tag, evaluate the
field expressions in **textual** (left-to-right) order, and store the values
in sorted-field-name order (positional for unnamed records).  This is the
statement of the spec to be compared against `eval`'s `Record` case. -/
def evalRecordTextualSpec (fuel : Nat) (p : Pgm) (h : Heap) (l : Locals)
    (exprs : List (Option String × Expr)) : Res (ControlFlow × Heap × Locals) :=
  match RecordShape.from_named_things exprs with
  | none => .abort
  | some shape =>
    match lookupA p.record_ty_tags shape with
    | none => .abort
    | some type_tag =>
      let (record, h₁) := allocate h (exprs.length + 1)
      match heapWrite h₁ record type_tag with
      | none => .abort
      | some h₂ =>
        match evalArgs fuel p h₂ l exprs false [] with
        | .ok (.ret a h' l') => .ok (.ret a, h', l')
        | .ok (.val vals h' l') =>
          match exprs.head? with
          | some first =>
            if first.1.isSome then
              match mapNamesUnwrap exprs with
              | none => .abort
              | some names0 =>
                match lookupAll (names0.zip vals) (List.insertionSort identLe names0) with
                | none => .abort
                | some sortedVals =>
                  match writeFields h' (record + 1) sortedVals with
                  | none => .abort
                  | some h'' => .ok (.val record, h'', l')
            else
              match writeFields h' (record + 1) vals with
              | none => .abort
              | some h'' => .ok (.val record, h'', l')
          | none =>
            match writeFields h' (record + 1) vals with
            | none => .abort
            | some h'' => .ok (.val record, h'', l')
        | .abort => .abort
        | .oof => .oof

/-! ### Concrete programs used to exercise the evaluator -/

/-- The built-in types that reserve the low tags (spec §4.2: built-in types
with no declared constructors reuse tags 0-6). -/
def builtinTys : List (String × TyCon) :=
  [("I32", ⟨[], 0⟩), ("Str", ⟨[], 1⟩), ("StrView", ⟨[], 2⟩), ("Array", ⟨[], 3⟩),
   ("Constr", ⟨[], 4⟩), ("TopFun", ⟨[], 5⟩), ("AssocFun", ⟨[], 6⟩)]

/-- `type Bool { False, True }`, the first user type (tag 7, so `False` has
tag 7 and `True` tag 8). -/
def boolTyCon : TyCon :=
  ⟨[⟨some "False", .unnamed 0⟩, ⟨some "True", .unnamed 0⟩], FIRST_TYPE_TAG⟩

def boolBuild : List Con × Heap :=
  buildConsByTag (builtinTys ++ [("Bool", boolTyCon)]) [] []

/-- The heap right after the object-model builder ran: exactly the two
canonical allocations `[False-tag, True-tag]` at addresses 0 and 1. -/
def boolHeap : Heap := boolBuild.2

/-- A program with just the `Bool` type; `true_alloc`/`false_alloc` are read
off `cons_by_tag` the way `Pgm::new` does. -/
def pgmBool : Pgm :=
  { ty_cons := builtinTys ++ [("Bool", boolTyCon)]
    cons_by_tag := boolBuild.1
    record_ty_tags := []
    associated_funs := []
    top_level_funs := []
    top_level_funs_by_idx := []
    true_alloc := ((boolBuild.1[FIRST_TYPE_TAG + 1]?).bind (·.alloc)).getD 0
    false_alloc := ((boolBuild.1[FIRST_TYPE_TAG]?).bind (·.alloc)).getD 0 }

/-- `pgmBool` extended with one named record shape `{a, b}`, assigned the
next tag after the user types. -/
def pgmRec : Pgm :=
  { pgmBool with record_ty_tags := [(.namedFields ["a", "b"], 9)] }

/-- A source `__eq` method (`fn __eq(self, other) { return other }`)
installed for tag 0 (`I32`), used to exercise `==` without built-ins. -/
def eqFunDecl : FunDecl := ⟨"__eq", true, ["other"], [.expr (.ret (.var "other"))]⟩

def pgmEq : Pgm :=
  { pgmBool with associated_funs := [[("__eq", ⟨0, .source eqFunDecl⟩)]] }

/-! ### Helper lemmas -/

theorem lookupA_eraseA_self {α β : Type} [DecidableEq α] (k : α) (m : List (α × β)) :
    lookupA (eraseA k m) k = none := by
  induction m with
  | nil => rfl
  | cons p rest ih =>
    by_cases hp : p.1 = k
    · simp [eraseA, lookupA, hp, ih]
    · simp [eraseA, lookupA, List.find?, hp, ih]

theorem collectNames_of_nodup (names : List String) (acc : List String)
    (hd : (acc ++ names).Nodup) :
    collectNames (names.map some) acc = some (acc ++ names) := by
  induction names generalizing acc with
  | nil => simp [collectNames]
  | cons n rest ih =>
    have hn : n ∉ acc := by
      intro hmem
      exact (List.disjoint_of_nodup_append hd) hmem (by simp)
    have : (acc ++ [n] ++ rest).Nodup := by simpa using hd
    simpa [collectNames, hn] using ih (acc ++ [n]) this

theorem insertionSort_eq_of_perm {l1 l2 : List String} (h : l1.Perm l2) :
    List.insertionSort identLe l1 = List.insertionSort identLe l2 :=
  List.eq_of_perm_of_sorted
    (((List.perm_insertionSort identLe l1).trans h).trans
      (List.perm_insertionSort identLe l2).symm)
    (List.sorted_insertionSort identLe l1)
    (List.sorted_insertionSort identLe l2)

/-- Every successful exit of the `for` iteration loop has the iteration
variable removed from the returned locals. -/
theorem forLoop_removes_binding (fuel : Nat) (p : Pgm) (h : Heap) (l : Locals)
    (v : String) (i hi : Int) (inclusive : Bool) (body : List Stmt)
    (cf : ControlFlow) (h' : Heap) (l' : Locals)
    (hrun : forLoop fuel p h l v i hi inclusive body = .ok (cf, h', l')) :
    lookupA l' v = none := by
  induction fuel generalizing h l i cf h' l' with
  | zero => simp [lookupA, forLoop] at hrun
  | succ fuel ih =>
    rw [forLoop] at hrun
    by_cases hc : (if inclusive then i ≤ hi else i < hi)
    · rw [if_pos hc] at hrun
      simp only [allocate_i32] at hrun
      rcases hstep : exec fuel p (h ++ [I32_TYPE_TAG, i32ToWord i]) (insertA v h.length l)
          body 0 with ⟨⟨a⟩ | ⟨a⟩, h₂, l₂⟩ | _ | _ <;> rw [hstep] at hrun
      · exact ih _ _ _ _ _ _ hrun
      · cases hrun
        exact lookupA_eraseA_self v l₂
      · cases hrun
      · cases hrun
    · rw [if_neg hc] at hrun
      cases hrun
      exact lookupA_eraseA_self v l

/-- Storing a (truncated) `i32` in a word and reading it back as `i32` is
the identity on the truncation. -/
theorem wordAsI32_i32ToWord (i : Int) : wordAsI32 (i32ToWord i) = toI32 i := by
  simp only [wordAsI32, i32ToWord, toI32]
  have h32 : (0 : Int) ≤ i % 2 ^ 32 := Int.emod_nonneg i (by norm_num)
  have h32' : i % 2 ^ 32 < 2 ^ 32 := Int.emod_lt_of_pos i (by norm_num)
  split_ifs <;> omega

/-- One unfolding of `eval` on `not`. -/
theorem eval_unOp_not (fuel : Nat) (p : Pgm) (h : Heap) (l : Locals) (e : Expr)
    (b : Addr) (h₁ : Heap) (l₁ : Locals)
    (he : eval fuel p h l e = .ok (.val b, h₁, l₁)) :
    eval (fuel + 1) p h l (.unOp .not e) =
      .ok (.val (p.bool_alloc (decide (b = p.false_alloc))), h₁, l₁) := by
  rw [eval]
  simp [valBind, he]

/-- For a nonempty all-named field list with distinct names,
`from_named_things` yields the sorted name list as the shape. -/
theorem from_named_things_of_names {α : Type} (e : List (Option String × α))
    (names : List String) (hmap : e.map Prod.fst = names.map some)
    (hnd : names.Nodup) (hne : e ≠ []) :
    RecordShape.from_named_things e =
      some (.namedFields (List.insertionSort identLe names)) := by
  cases e with
  | nil => exact absurd rfl hne
  | cons first rest =>
    cases names with
    | nil => simp at hmap
    | cons nm names' =>
      obtain ⟨n?, a⟩ := first
      have hfst : n? = some nm := by
        simpa using congrArg (fun xs => xs.head?) hmap
      subst hfst
      have hcoll : collectNames (((some nm, a) :: rest).map (fun x => x.1)) []
          = some (nm :: names') := by
        have hmap' : ((some nm, a) :: rest).map (fun x => (x.1 : Option String))
            = List.map some (nm :: names') := hmap
        rw [hmap']
        simpa using collectNames_of_nodup (nm :: names') [] (by simpa using hnd)
      rw [RecordShape.from_named_things]
      simp only [hcoll]

/-- For an all-unnamed field list, `from_named_things` yields the arity
shape. -/
theorem from_named_things_of_unnamed {α : Type} (e : List (Option String × α))
    (k : Nat) (hmap : e.map Prod.fst = List.replicate k none) :
    RecordShape.from_named_things e = some (.unnamedFields k) := by
  cases e with
  | nil =>
    have hk : k = 0 := by simpa using (congrArg List.length hmap).symm
    subst hk
    rfl
  | cons first rest =>
    obtain ⟨n?, a⟩ := first
    cases k with
    | zero => simp at hmap
    | succ k' =>
      have hfst : n? = none := by
        simpa [List.replicate] using congrArg (fun xs => xs.head?) hmap
      have hlen : rest.length + 1 = k' + 1 := by
        simpa using congrArg List.length hmap
      rw [RecordShape.from_named_things]
      simp [hfst, hlen]

/-! ### Claims -/

/-- C1: the claim states that every evaluation producing a value of a
nullary constructor yields the same heap address — the canonical allocation
made by the object model builder — including for a constructor-select
expression `T.C`.  The code contradicts this (and its own documentation of
`Con::alloc` and the debug assertions that every `Bool` value is canonical):
evaluating the constructor-select `Bool.True` allocates a fresh one-word
cell at address 2 carrying `True`'s tag 8, instead of returning the
canonical `true_alloc` at address 1 created by the builder. -/
theorem c1_constr_select_duplicates_canonical_allocation :
    eval 1 pgmBool boolHeap [] (.constrSelect "Bool" "True") =
      .ok (.val 2, [7, 8, 8], []) ∧
    pgmBool.true_alloc = 1 ∧
    heapRead boolHeap 1 = some 8 ∧
    heapRead [7, 8, 8] 2 = some 8 ∧
    (2 : Addr) ≠ pgmBool.true_alloc := by
  decide

/-- C3 (amended): evaluating `a[i]` performs no tag validation at all; it
reads the word after the index box as the index, the word after the array
value as the length, bounds-checks the raw words, returns the stored element
word when the index is in bounds, and aborts when the index is `≥` the
length. -/
theorem c3_array_index_bounds_checked
    (fuel : Nat) (p : Pgm) (h : Heap) (l : Locals) (arr idx : Expr)
    (aa ia : Addr) (h₁ h₂ : Heap) (l₁ l₂ : Locals) (ix len : Word)
    (harr : eval fuel p h l arr = .ok (.val aa, h₁, l₁))
    (hidx : eval fuel p h₁ l₁ idx = .ok (.val ia, h₂, l₂))
    (hix : heapRead h₂ (ia + 1) = some ix)
    (hlen : heapRead h₂ (aa + 1) = some len) :
    (∀ elem : Word, ix < len → heapRead h₂ (aa + 2 + ix) = some elem →
      eval (fuel + 1) p h l (.arrayIndex arr idx) = .ok (.val elem, h₂, l₂)) ∧
    (len ≤ ix → eval (fuel + 1) p h l (.arrayIndex arr idx) = .abort) := by
  constructor
  · intro elem hlt helem
    have hge : ¬ ix ≥ len := Nat.not_le.mpr hlt
    simp [eval, valBind, harr, hidx, hix, hlen, helem, hge]
  · intro hle
    have hge : ix ≥ len := hle
    simp [eval, valBind, harr, hidx, hix, hlen, hge]

/-- C3 witness: a two-element array indexed at 1 returns the stored element
word. -/
theorem c3_array_index_witness :
    eval 2 pgmBool [3, 2, 10, 12, 0, 1] [("a", 0), ("i", 4)]
      (.arrayIndex (.var "a") (.var "i")) =
      .ok (.val 12, [3, 2, 10, 12, 0, 1], [("a", 0), ("i", 4)]) :=
  (c3_array_index_bounds_checked 1 pgmBool [3, 2, 10, 12, 0, 1] [("a", 0), ("i", 4)]
    (.var "a") (.var "i") 0 4 [3, 2, 10, 12, 0, 1] [3, 2, 10, 12, 0, 1]
    [("a", 0), ("i", 4)] [("a", 0), ("i", 4)] 1 2
    (by decide) (by decide) (by decide) (by decide)).1 12 (by decide) (by decide)

/-- C3 counterexample: the claim says `a[i]` requires `a`'s tag to be
`Array` (aborting otherwise); here `a` is an `I32` box (tag 0), and the
evaluation still succeeds, treating the integer payload as a length. -/
theorem c3_no_tag_check_counterexample :
    eval 3 pgmBool [0, 1, 0, 0] [("a", 0), ("i", 2)] (.arrayIndex (.var "a") (.var "i"))
      = .ok (.val 0, [0, 1, 0, 0], [("a", 0), ("i", 2)]) ∧
    heapRead [0, 1, 0, 0] 0 = some I32_TYPE_TAG ∧
    I32_TYPE_TAG ≠ ARRAY_TYPE_TAG := by
  decide

/-- C4 (amended): a failed match returns nothing silently; a non-string
value matched against a string pattern is a structural error that aborts;
but a value whose tag lies outside the pattern's type-constructor tag range
produces a silent failure (with a printed diagnostic), not an abort. -/
theorem c4_structural_errors
    : (∀ (fuel : Nat) (p : Pgm) (h : Heap) (value : Addr) (type_ : String)
        (c : Option String) (fps : List (Option String × Pat))
        (value_tag : Word) (ty_con : TyCon),
        heapRead h value = some value_tag →
        lookupA p.ty_cons type_ = some ty_con →
        (value_tag < ty_con.tag_range.1 ∨ value_tag > ty_con.tag_range.2) →
        try_bind_pat (fuel + 1) p h (.constr type_ c fps) value = .ok (none, h)) ∧
      (∀ (fuel : Nat) (p : Pgm) (h : Heap) (value : Addr) (s : List Nat) (t : Word),
        heapRead h value = some t → t ≠ STR_TYPE_TAG → t ≠ STR_VIEW_TYPE_TAG →
        try_bind_pat (fuel + 1) p h (.str s) value = .abort) := by
  constructor
  · intro fuel p h value type_ c fps value_tag ty_con hread hty hrange
    rw [try_bind_pat]
    simp only [hread, hty]
    rw [if_pos hrange]
  · intro fuel p h value s t hread ht1 ht2
    rw [try_bind_pat]
    simp only [hread, if_neg ht1]
    rw [str_view_bytes, hread]
    simp [ht2]

/-- C4 witness: an out-of-range tag (9, outside `Bool`'s range [7, 8]) fails
silently; an `I32` box matched against a string pattern aborts. -/
theorem c4_structural_errors_witness :
    try_bind_pat 1 pgmBool [9] (.constr "Bool" (some "True") []) 0 = .ok (none, [9]) ∧
    try_bind_pat 1 pgmBool [0, 5] (.str [104]) 0 = .abort :=
  ⟨c4_structural_errors.1 0 pgmBool [9] 0 "Bool" (some "True") [] 9 boolTyCon
      (by decide) (by decide) (by decide),
    c4_structural_errors.2 0 pgmBool [0, 5] 0 [104] 0 (by decide) (by decide) (by decide)⟩

/-- C4 counterexample: the claim says a value whose tag lies outside the
pattern's type-constructor tag range makes the interpreter abort; in fact
`try_bind_pat` returns a silent failure (`none`) for it. -/
theorem c4_out_of_range_tag_is_silent :
    try_bind_pat 1 pgmBool [9] (.constr "Bool" none []) 0 = .ok (none, [9]) ∧
    (Res.ok ((none : Option Binds), ([9] : Heap)) ≠ (.abort : Res (Option Binds × Heap))) := by
  decide

/-- C6: for every execution of a `for` statement whose range head evaluates
normally, every exit that yields a result — normal completion of all
iterations (including zero iterations) and early exit by a `Ret` propagated
from the body — leaves the local environment without a binding for the
iteration variable. -/
theorem c6_for_removes_binding_on_all_exits
    (fuel : Nat) (p : Pgm) (h : Heap) (l : Locals) (v : String) (lo hi : Expr)
    (inclusive : Bool) (body : List Stmt) (lo_v hi_v : Addr) (h₁ h₂ : Heap)
    (l₁ l₂ : Locals) (lo_w hi_w : Word) (cf : ControlFlow) (h' : Heap) (l' : Locals)
    (hlo : eval fuel p h l lo = .ok (.val lo_v, h₁, l₁))
    (hlow : heapRead h₁ (lo_v + 1) = some lo_w)
    (hhi : eval fuel p h₁ l₁ hi = .ok (.val hi_v, h₂, l₂))
    (hhiw : heapRead h₂ (hi_v + 1) = some hi_w)
    (hrun : execStmt (fuel + 1) p h l (.for_ v (.range lo hi inclusive) body)
      = .ok (cf, h', l')) :
    lookupA l' v = none := by
  rw [execStmt] at hrun
  simp only [valBind, hlo, hlow, hhi, hhiw] at hrun
  exact forLoop_removes_binding fuel p h₂ l₂ v _ _ inclusive body cf h' l' hrun

/-- C6 witness: `for i in 0..2 { }` with an outer binding of `i`, run to
normal completion; the binding is gone. -/
theorem c6_for_removes_binding_witness : lookupA ([] : Locals) "i" = none :=
  c6_for_removes_binding_on_all_exits 9 pgmBool [] [("i", 5)] "i" (.int 0) (.int 2)
    false [] 0 2 [0, 0] [0, 0, 0, 2] [("i", 5)] [("i", 5)] 0 2 (.val 0)
    [0, 0, 0, 2, 0, 0, 0, 1] []
    (by decide) (by decide) (by decide) (by decide) (by decide)

/-- C8: for a value `b` that is one of the two canonical boolean
allocations, `not` returns the other boolean singleton, and therefore
`not not b` evaluates to the same address as `b`. -/
theorem c8_not_involution
    (fuel : Nat) (p : Pgm) (h : Heap) (l : Locals) (e : Expr) (b : Addr)
    (h₁ : Heap) (l₁ : Locals)
    (hb : b = p.true_alloc ∨ b = p.false_alloc)
    (hne : p.true_alloc ≠ p.false_alloc)
    (he : eval fuel p h l e = .ok (.val b, h₁, l₁)) :
    eval (fuel + 1) p h l (.unOp .not e) =
      .ok (.val (if b = p.false_alloc then p.true_alloc else p.false_alloc), h₁, l₁) ∧
    eval (fuel + 2) p h l (.unOp .not (.unOp .not e)) = .ok (.val b, h₁, l₁) := by
  rcases hb with rfl | rfl
  · have h1 := eval_unOp_not fuel p h l e _ h₁ l₁ he
    rw [show decide (p.true_alloc = p.false_alloc) = false by simp [hne]] at h1
    have h1' : eval (fuel + 1) p h l (.unOp .not e) = .ok (.val p.false_alloc, h₁, l₁) := by
      simpa [Pgm.bool_alloc] using h1
    have h2 := eval_unOp_not (fuel + 1) p h l (.unOp .not e) _ h₁ l₁ h1'
    rw [show decide (p.false_alloc = p.false_alloc) = true by simp] at h2
    exact ⟨by rw [if_neg hne]; exact h1', by simpa [Pgm.bool_alloc] using h2⟩
  · have h1 := eval_unOp_not fuel p h l e _ h₁ l₁ he
    rw [show decide (p.false_alloc = p.false_alloc) = true by simp] at h1
    have h2 := eval_unOp_not (fuel + 1) p h l (.unOp .not e) _ h₁ l₁ h1
    rw [show decide (p.bool_alloc true = p.false_alloc) = false by
      simp [Pgm.bool_alloc, hne]] at h2
    exact ⟨by rw [if_pos rfl]; simpa [Pgm.bool_alloc] using h1,
      by simpa [Pgm.bool_alloc] using h2⟩

/-- C8 witness: `not not b` at the canonical `True` allocation of
`pgmBool`. -/
theorem c8_not_involution_witness :
    eval 3 pgmBool boolHeap [("b", 1)] (.unOp .not (.unOp .not (.var "b"))) =
      .ok (.val 1, boolHeap, [("b", 1)]) :=
  (c8_not_involution 1 pgmBool boolHeap [("b", 1)] (.var "b") 1 boolHeap [("b", 1)]
    (Or.inl (by decide)) (by decide) (by decide)).2

/-- C7: any two record literals (or patterns) whose named fields form the
same set of field names — regardless of textual order — are given the same
record shape by `RecordShape::from_named_things` and hence the same type tag
by the record-tag table; and any two unnamed records of the same arity share
a shape (and tag) as well. -/
theorem c7_same_field_set_same_tag :
    (∀ {α β : Type} (e1 : List (Option String × α)) (e2 : List (Option String × β))
      (names1 names2 : List String),
      e1.map Prod.fst = names1.map some →
      e2.map Prod.fst = names2.map some →
      names1.Nodup → names1.Perm names2 →
      RecordShape.from_named_things e1 = RecordShape.from_named_things e2 ∧
      ∀ m : List (RecordShape × Word),
        (RecordShape.from_named_things e1).bind (lookupA m) =
          (RecordShape.from_named_things e2).bind (lookupA m)) ∧
    (∀ {α β : Type} (e1 : List (Option String × α)) (e2 : List (Option String × β))
      (k : Nat),
      e1.map Prod.fst = List.replicate k none →
      e2.map Prod.fst = List.replicate k none →
      RecordShape.from_named_things e1 = some (.unnamedFields k) ∧
      RecordShape.from_named_things e2 = some (.unnamedFields k)) := by
  constructor
  · intro α β e1 e2 names1 names2 h1 h2 hnd hperm
    rcases eq_or_ne names1 [] with rfl | hne1
    · have he1 : e1 = [] := by simpa using h1
      have hn2 : names2 = [] := hperm.symm.eq_nil
      have he2 : e2 = [] := by
        rw [hn2] at h2
        simpa using h2
      subst he1
      subst he2
      exact ⟨rfl, fun m => rfl⟩
    · have he1 : e1 ≠ [] := by
        intro hh
        rw [hh] at h1
        exact hne1 (by simpa using h1.symm)
      have hne2 : names2 ≠ [] := by
        intro hh
        rw [hh] at hperm
        exact hne1 hperm.eq_nil
      have he2 : e2 ≠ [] := by
        intro hh
        rw [hh] at h2
        exact hne2 (by simpa using h2.symm)
      have hnd2 : names2.Nodup := hperm.nodup hnd
      have hs1 := from_named_things_of_names e1 names1 h1 hnd he1
      have hs2 := from_named_things_of_names e2 names2 h2 hnd2 he2
      have hsort := insertionSort_eq_of_perm hperm
      exact ⟨by rw [hs1, hs2, hsort], fun m => by rw [hs1, hs2, hsort]⟩
  · intro α β e1 e2 k h1 h2
    exact ⟨from_named_things_of_unnamed e1 k h1, from_named_things_of_unnamed e2 k h2⟩

/-- C7 witness: `{b = ., a = .}` and `{a = ., b = .}` share a shape and tag
(tag 9 in `pgmRec`). -/
theorem c7_same_field_set_same_tag_witness :
    RecordShape.from_named_things [(some "b", (1 : Nat)), (some "a", 2)] =
      RecordShape.from_named_things [(some "a", (5 : Nat)), (some "b", 6)] ∧
    (RecordShape.from_named_things [(some "b", (1 : Nat)), (some "a", 2)]).bind
        (lookupA pgmRec.record_ty_tags) =
      (RecordShape.from_named_things [(some "a", (5 : Nat)), (some "b", 6)]).bind
        (lookupA pgmRec.record_ty_tags) := by
  have hmain := c7_same_field_set_same_tag.1 [(some "b", (1 : Nat)), (some "a", 2)]
    [(some "a", (5 : Nat)), (some "b", 6)] ["b", "a"] ["a", "b"] rfl rfl
    (by decide) (by decide)
  exact ⟨hmain.1, hmain.2 pgmRec.record_ty_tags⟩

/-- C2 (amended): the field expressions of a record literal with named
fields are evaluated in sorted-field-name order — the storage order — not in
textual order (unnamed records are evaluated left-to-right).  For the
literal `{b = m, a = n}` the resulting heap shows it: the box holding `n`
(field `a`, stored in slot 1) is allocated at address 3, before the box
holding `m` (field `b`, slot 2) at address 5, so `a`'s expression was
evaluated first even though `b` is written first. -/
theorem c2_record_fields_evaluated_in_sorted_name_order (l : Locals) (m n : Int) :
    eval 5 pgmRec [] l (.record [(some "b", .int m), (some "a", .int n)]) =
      .ok (.val 0, [9, 3, 5, I32_TYPE_TAG, i32ToWord n, I32_TYPE_TAG, i32ToWord m], l) :=
  rfl

/-- C2 counterexample: the record literal `{b = 1, a = 2}` evaluated by the
interpreter differs from the spec's textual-evaluation-order model
(`evalRecordTextualSpec`): the interpreter's heap shows `a`'s expression
evaluated first (its box at the lower address 3), the spec model shows `b`'s
first. -/
theorem c2_textual_order_counterexample :
    eval 5 pgmRec [] [] (.record [(some "b", .int 1), (some "a", .int 2)])
      = .ok (.val 0, [9, 3, 5, 0, 2, 0, 1], []) ∧
    evalRecordTextualSpec 5 pgmRec [] [] [(some "b", .int 1), (some "a", .int 2)]
      = .ok (.val 0, [9, 5, 3, 0, 1, 0, 2], []) ∧
    eval 5 pgmRec [] [] (.record [(some "b", .int 1), (some "a", .int 2)])
      ≠ evalRecordTextualSpec 5 pgmRec [] [] [(some "b", .int 1), (some "a", .int 2)] :=
  ⟨by decide, by decide, by decide⟩

/-- C5: every evaluator step propagates a `Ret(addr)` arising from a
sub-evaluation upward unchanged, with the same address; the only place that
converts a `Ret` into a normal result is `call_source_fun` at the function
boundary.  The conjunction walks through every sub-expression evaluation of
every `eval`/`exec` case: field select; the five call paths (direct
top-level call, static type-associated call, method call on an evaluated
receiver, the generic `heap[fun]` dispatch, the unbound-callee fallback,
argument loops, and constructor allocation loops); string interpolation;
binary and unary operators; array indexing; record literals (both field
loops and both wirings); `return` itself; `match` (scrutinee and
alternative body); `if` (wiring, conditions, taken branch, else branch);
statement sequences; `let` right-hand sides; assignment right-hand sides,
wiring, and the assigned field-select object; `while` (wiring, condition,
body); `for` (range head, body, with the iteration binding removed but the
address unchanged); and finally the two `call_source_fun` absorption
equations, which alone collapse both `Val` and `Ret` into a plain return
value. -/
theorem c5_ret_propagates_unchanged :
    (∀ (fuel : Nat) (p : Pgm) (h : Heap) (l : Locals) (object : Expr) (field : String)
      (a : Addr) (h' : Heap) (l' : Locals),
      eval fuel p h l object = .ok (.ret a, h', l') →
      eval (fuel + 1) p h l (.fieldSelect object field) = .ok (.ret a, h', l')) ∧
    (∀ (fuel : Nat) (p : Pgm) (h : Heap) (l : Locals) (v : String)
      (args : List (Option String × Expr)) (fval : Addr),
      lookupA l v = some fval →
      eval (fuel + 1) p h l (.call (.var v) args) = callDispatch fuel p h l fval args) ∧
    (∀ (fuel : Nat) (p : Pgm) (h : Heap) (l : Locals) (v : String)
      (args : List (Option String × Expr)) (f : Fun) (a : Addr) (h' : Heap) (l' : Locals),
      lookupA l v = none →
      lookupA p.top_level_funs v = some f →
      evalArgs fuel p h l args false [] = .ok (.ret a h' l') →
      eval (fuel + 1) p h l (.call (.var v) args) = .ok (.ret a, h', l')) ∧
    (∀ (fuel : Nat) (p : Pgm) (h : Heap) (l : Locals) (ty field : String)
      (args : List (Option String × Expr)) (tc : TyCon) (c : Char) (cs : List Char)
      (funs : List (String × Fun)) (f : Fun) (a : Addr) (h' : Heap) (l' : Locals),
      lookupA p.ty_cons ty = some tc →
      field.data = c :: cs →
      c.isUpper = false →
      p.associated_funs[tc.type_tag]? = some funs →
      lookupA funs field = some f →
      evalArgs fuel p h l args false [] = .ok (.ret a h' l') →
      eval (fuel + 1) p h l (.call (.fieldSelect (.upperVar ty) field) args) =
        .ok (.ret a, h', l')) ∧
    (∀ (fuel : Nat) (p : Pgm) (h : Heap) (l : Locals) (object : Expr) (field : String)
      (args : List (Option String × Expr)) (a : Addr) (h' : Heap) (l' : Locals),
      (∀ ty, object ≠ .upperVar ty) →
      eval fuel p h l object = .ok (.ret a, h', l') →
      eval (fuel + 1) p h l (.call (.fieldSelect object field) args) =
        .ok (.ret a, h', l')) ∧
    (∀ (fuel : Nat) (p : Pgm) (h : Heap) (l : Locals) (object : Expr) (field : String)
      (args : List (Option String × Expr)) (ov : Addr) (h₁ : Heap) (l₁ : Locals)
      (object_tag : Word) (funs : List (String × Fun)) (f : Fun) (a : Addr)
      (h' : Heap) (l' : Locals),
      (∀ ty, object ≠ .upperVar ty) →
      eval fuel p h l object = .ok (.val ov, h₁, l₁) →
      heapRead h₁ ov = some object_tag →
      p.associated_funs[object_tag]? = some funs →
      lookupA funs field = some f →
      evalArgs fuel p h₁ l₁ args false [] = .ok (.ret a h' l') →
      eval (fuel + 1) p h l (.call (.fieldSelect object field) args) =
        .ok (.ret a, h', l')) ∧
    (∀ (fuel : Nat) (p : Pgm) (h : Heap) (l : Locals) (ty : String)
      (args : List (Option String × Expr)),
      eval (fuel + 1) p h l (.call (.upperVar ty) args) =
        allocate_object_from_names fuel p h l ty none args) ∧
    (∀ (fuel : Nat) (p : Pgm) (h : Heap) (l : Locals) (fn : Expr)
      (args : List (Option String × Expr)) (a : Addr) (h₁ : Heap) (l₁ : Locals),
      (∀ v, fn ≠ .var v) →
      (∀ o fd, fn ≠ .fieldSelect o fd) →
      (∀ t, fn ≠ .upperVar t) →
      eval fuel p h l fn = .ok (.ret a, h₁, l₁) →
      eval (fuel + 1) p h l (.call fn args) = .ok (.ret a, h₁, l₁)) ∧
    (∀ (fuel : Nat) (p : Pgm) (h : Heap) (l : Locals) (fval : Addr)
      (args : List (Option String × Expr)) (idx : Word) (f : Fun) (a : Addr)
      (h' : Heap) (l' : Locals),
      heapRead h fval = some TOP_FUN_TYPE_TAG →
      heapRead h (fval + 1) = some idx →
      p.top_level_funs_by_idx[idx]? = some f →
      evalArgs fuel p h l args true [] = .ok (.ret a h' l') →
      callDispatch (fuel + 1) p h l fval args = .ok (.ret a, h', l')) ∧
    (∀ (fuel : Nat) (p : Pgm) (h : Heap) (l : Locals) (constr_tag : Word)
      (args : List (Option String × Expr)) (n : Nat) (a : Addr) (h' : Heap) (l' : Locals),
      p.get_tag_fields constr_tag = some (.unnamed n) →
      n = args.length →
      evalArgs fuel p h l args true [] = .ok (.ret a h' l') →
      allocate_object_from_tag (fuel + 1) p h l constr_tag args = .ok (.ret a, h', l')) ∧
    (∀ (fuel : Nat) (p : Pgm) (h : Heap) (l : Locals) (constr_tag : Word)
      (args : List (Option String × Expr)) (fns : List String) (a : Addr)
      (h' : Heap) (l' : Locals),
      p.get_tag_fields constr_tag = some (.named fns) →
      evalNamedArgs fuel p h l args [] = .ok (.ret a h' l') →
      allocate_object_from_tag (fuel + 1) p h l constr_tag args = .ok (.ret a, h', l')) ∧
    (∀ (fuel : Nat) (p : Pgm) (h : Heap) (l : Locals) (name : Option String) (e1 : Expr)
      (rest : List (Option String × Expr)) (assertUnnamed : Bool) (acc : List Addr)
      (a : Addr) (h' : Heap) (l' : Locals),
      (assertUnnamed && name.isSome) = false →
      eval fuel p h l e1 = .ok (.ret a, h', l') →
      evalArgs (fuel + 1) p h l ((name, e1) :: rest) assertUnnamed acc =
        .ok (.ret a h' l')) ∧
    (∀ (fuel : Nat) (p : Pgm) (h : Heap) (l : Locals) (nm : String) (e1 : Expr)
      (rest : List (Option String × Expr)) (acc : Binds) (a : Addr) (h' : Heap)
      (l' : Locals),
      eval fuel p h l e1 = .ok (.ret a, h', l') →
      evalNamedArgs (fuel + 1) p h l ((some nm, e1) :: rest) acc = .ok (.ret a h' l')) ∧
    (∀ (fuel : Nat) (p : Pgm) (h : Heap) (l : Locals) (parts : List StringPart)
      (a : Addr) (h' : Heap) (l' : Locals),
      evalStringParts fuel p h l parts [] = .ok (.ret a h' l') →
      eval (fuel + 1) p h l (.str parts) = .ok (.ret a, h', l')) ∧
    (∀ (fuel : Nat) (p : Pgm) (h : Heap) (l : Locals) (e1 : Expr)
      (rest : List StringPart) (bytes : List Nat) (a : Addr) (h' : Heap) (l' : Locals),
      eval fuel p h l e1 = .ok (.ret a, h', l') →
      evalStringParts (fuel + 1) p h l (.exprP e1 :: rest) bytes = .ok (.ret a h' l')) ∧
    (∀ (fuel : Nat) (p : Pgm) (h : Heap) (l : Locals) (left right : Expr) (op : BinOp)
      (a : Addr) (h' : Heap) (l' : Locals),
      eval fuel p h l left = .ok (.ret a, h', l') →
      eval (fuel + 1) p h l (.binOp left right op) = .ok (.ret a, h', l')) ∧
    (∀ (fuel : Nat) (p : Pgm) (h : Heap) (l : Locals) (left right : Expr) (op : BinOp)
      (lv : Addr) (h₁ : Heap) (l₁ : Locals) (a : Addr) (h' : Heap) (l' : Locals),
      eval fuel p h l left = .ok (.val lv, h₁, l₁) →
      eval fuel p h₁ l₁ right = .ok (.ret a, h', l') →
      eval (fuel + 1) p h l (.binOp left right op) = .ok (.ret a, h', l')) ∧
    (∀ (fuel : Nat) (p : Pgm) (h : Heap) (l : Locals) (op : UnOp) (e1 : Expr)
      (a : Addr) (h' : Heap) (l' : Locals),
      eval fuel p h l e1 = .ok (.ret a, h', l') →
      eval (fuel + 1) p h l (.unOp op e1) = .ok (.ret a, h', l')) ∧
    (∀ (fuel : Nat) (p : Pgm) (h : Heap) (l : Locals) (arr idx : Expr)
      (a : Addr) (h' : Heap) (l' : Locals),
      eval fuel p h l arr = .ok (.ret a, h', l') →
      eval (fuel + 1) p h l (.arrayIndex arr idx) = .ok (.ret a, h', l')) ∧
    (∀ (fuel : Nat) (p : Pgm) (h : Heap) (l : Locals) (arr idx : Expr) (av : Addr)
      (h₁ : Heap) (l₁ : Locals) (a : Addr) (h' : Heap) (l' : Locals),
      eval fuel p h l arr = .ok (.val av, h₁, l₁) →
      eval fuel p h₁ l₁ idx = .ok (.ret a, h', l') →
      eval (fuel + 1) p h l (.arrayIndex arr idx) = .ok (.ret a, h', l')) ∧
    (∀ (fuel : Nat) (p : Pgm) (h : Heap) (l : Locals)
      (exprs : List (Option String × Expr)) (shape : RecordShape) (tag : Word)
      (first : Option String × Expr) (names0 : List String) (h₂ h₃ : Heap)
      (a : Addr) (h' : Heap) (l' : Locals),
      RecordShape.from_named_things exprs = some shape →
      lookupA p.record_ty_tags shape = some tag →
      heapWrite (h ++ List.replicate (exprs.length + 1) 0) h.length tag = some h₂ →
      exprs.head? = some first →
      first.1.isSome = true →
      heapWrite h₂ h.length tag = some h₃ →
      mapNamesUnwrap exprs = some names0 →
      evalRecordNamed fuel p h₃ l h.length exprs (List.insertionSort identLe names0) 0 =
        .ok (.ret a h' l') →
      eval (fuel + 1) p h l (.record exprs) = .ok (.ret a, h', l')) ∧
    (∀ (fuel : Nat) (p : Pgm) (h : Heap) (l : Locals)
      (exprs : List (Option String × Expr)) (shape : RecordShape) (tag : Word)
      (first : Option String × Expr) (h₂ : Heap) (a : Addr) (h' : Heap) (l' : Locals),
      RecordShape.from_named_things exprs = some shape →
      lookupA p.record_ty_tags shape = some tag →
      heapWrite (h ++ List.replicate (exprs.length + 1) 0) h.length tag = some h₂ →
      exprs.head? = some first →
      first.1.isSome = false →
      evalRecordUnnamed fuel p h₂ l h.length exprs 0 = .ok (.ret a h' l') →
      eval (fuel + 1) p h l (.record exprs) = .ok (.ret a, h', l')) ∧
    (∀ (fuel : Nat) (p : Pgm) (h : Heap) (l : Locals) (record : Addr)
      (exprs : List (Option String × Expr)) (nm : String) (rest : List String)
      (name_idx : Nat) (e1 : Expr) (a : Addr) (h' : Heap) (l' : Locals),
      findExprByName exprs nm = some (some e1) →
      eval fuel p h l e1 = .ok (.ret a, h', l') →
      evalRecordNamed (fuel + 1) p h l record exprs (nm :: rest) name_idx =
        .ok (.ret a h' l')) ∧
    (∀ (fuel : Nat) (p : Pgm) (h : Heap) (l : Locals) (record : Addr)
      (nm : Option String) (e1 : Expr) (rest : List (Option String × Expr))
      (idx : Nat) (a : Addr) (h' : Heap) (l' : Locals),
      eval fuel p h l e1 = .ok (.ret a, h', l') →
      evalRecordUnnamed (fuel + 1) p h l record ((nm, e1) :: rest) idx =
        .ok (.ret a h' l')) ∧
    (∀ (fuel : Nat) (p : Pgm) (h : Heap) (l : Locals) (e1 : Expr)
      (a : Addr) (h' : Heap) (l' : Locals),
      eval fuel p h l e1 = .ok (.ret a, h', l') →
      eval (fuel + 1) p h l (.ret e1) = .ok (.ret a, h', l')) ∧
    (∀ (fuel : Nat) (p : Pgm) (h : Heap) (l : Locals) (scrutinee : Expr)
      (alts : List (Pat × Option Expr × List Stmt)) (a : Addr) (h' : Heap) (l' : Locals),
      eval fuel p h l scrutinee = .ok (.ret a, h', l') →
      eval (fuel + 1) p h l (.match_ scrutinee alts) = .ok (.ret a, h', l')) ∧
    (∀ (fuel : Nat) (p : Pgm) (h : Heap) (l : Locals) (scrut : Addr) (pattern : Pat)
      (rhs : List Stmt) (rest : List (Pat × Option Expr × List Stmt)) (binds : Binds)
      (h₁ : Heap),
      try_bind_pat fuel p h pattern scrut = .ok (some binds, h₁) →
      evalMatchAlts (fuel + 1) p h l scrut ((pattern, none, rhs) :: rest) =
        exec fuel p h₁ (extendA l binds) rhs 0) ∧
    (∀ (fuel : Nat) (p : Pgm) (h : Heap) (l : Locals)
      (branches : List (Expr × List Stmt)) (els : Option (List Stmt)),
      eval (fuel + 1) p h l (.if_ branches els) = evalIfBranches fuel p h l branches els) ∧
    (∀ (fuel : Nat) (p : Pgm) (h : Heap) (l : Locals) (cond : Expr) (ss : List Stmt)
      (rest : List (Expr × List Stmt)) (els : Option (List Stmt)) (a : Addr)
      (h' : Heap) (l' : Locals),
      eval fuel p h l cond = .ok (.ret a, h', l') →
      evalIfBranches (fuel + 1) p h l ((cond, ss) :: rest) els = .ok (.ret a, h', l')) ∧
    (∀ (fuel : Nat) (p : Pgm) (h : Heap) (l : Locals) (stmt : Stmt) (rest : List Stmt)
      (rv : Addr) (a : Addr) (h' : Heap) (l' : Locals),
      execStmt fuel p h l stmt = .ok (.ret a, h', l') →
      exec (fuel + 1) p h l (stmt :: rest) rv = .ok (.ret a, h', l')) ∧
    (∀ (fuel : Nat) (p : Pgm) (h : Heap) (l : Locals) (lhs : Pat) (rhs : Expr)
      (a : Addr) (h' : Heap) (l' : Locals),
      eval fuel p h l rhs = .ok (.ret a, h', l') →
      execStmt (fuel + 1) p h l (.letS lhs rhs) = .ok (.ret a, h', l')) ∧
    (∀ (fuel : Nat) (p : Pgm) (h : Heap) (l : Locals) (lhs rhs : Expr) (op : AssignOp)
      (a : Addr) (h' : Heap) (l' : Locals),
      eval fuel p h l rhs = .ok (.ret a, h', l') →
      execStmt (fuel + 1) p h l (.assign lhs rhs op) = .ok (.ret a, h', l')) ∧
    (∀ (fuel : Nat) (p : Pgm) (h : Heap) (l : Locals) (e1 : Expr),
      execStmt (fuel + 1) p h l (.expr e1) = eval fuel p h l e1) ∧
    (∀ (fuel : Nat) (p : Pgm) (h : Heap) (l : Locals) (cond : Expr) (body : List Stmt),
      execStmt (fuel + 1) p h l (.while_ cond body) = whileLoop fuel p h l cond body) ∧
    (∀ (fuel : Nat) (p : Pgm) (h : Heap) (l : Locals) (cond : Expr) (body : List Stmt)
      (a : Addr) (h' : Heap) (l' : Locals),
      eval fuel p h l cond = .ok (.ret a, h', l') →
      whileLoop (fuel + 1) p h l cond body = .ok (.ret a, h', l')) ∧
    (∀ (fuel : Nat) (p : Pgm) (h : Heap) (l : Locals) (cond : Expr) (body : List Stmt)
      (c : Addr) (h₁ : Heap) (l₁ : Locals) (a : Addr) (h₂ : Heap) (l₂ : Locals),
      eval fuel p h l cond = .ok (.val c, h₁, l₁) →
      c ≠ p.false_alloc →
      exec fuel p h₁ l₁ body 0 = .ok (.ret a, h₂, l₂) →
      whileLoop (fuel + 1) p h l cond body = .ok (.ret a, h₂, l₂)) ∧
    (∀ (fuel : Nat) (p : Pgm) (h : Heap) (l : Locals) (v : String) (lo hi : Expr)
      (inclusive : Bool) (body : List Stmt) (a : Addr) (h' : Heap) (l' : Locals),
      eval fuel p h l lo = .ok (.ret a, h', l') →
      execStmt (fuel + 1) p h l (.for_ v (.range lo hi inclusive) body) =
        .ok (.ret a, h', l')) ∧
    (∀ (fuel : Nat) (p : Pgm) (h : Heap) (l : Locals) (v : String) (lo hi : Expr)
      (inclusive : Bool) (body : List Stmt) (lo_v : Addr) (h₁ : Heap) (l₁ : Locals)
      (lo_w : Word) (a : Addr) (h' : Heap) (l' : Locals),
      eval fuel p h l lo = .ok (.val lo_v, h₁, l₁) →
      heapRead h₁ (lo_v + 1) = some lo_w →
      eval fuel p h₁ l₁ hi = .ok (.ret a, h', l') →
      execStmt (fuel + 1) p h l (.for_ v (.range lo hi inclusive) body) =
        .ok (.ret a, h', l')) ∧
    (∀ (fuel : Nat) (p : Pgm) (h : Heap) (l : Locals) (v : String) (i hi : Int)
      (inclusive : Bool) (body : List Stmt) (a : Addr) (h₂ : Heap) (l₂ : Locals),
      (if inclusive then i ≤ hi else i < hi) →
      exec fuel p (h ++ [I32_TYPE_TAG, i32ToWord i]) (insertA v h.length l) body 0 =
        .ok (.ret a, h₂, l₂) →
      forLoop (fuel + 1) p h l v i hi inclusive body = .ok (.ret a, h₂, eraseA v l₂)) ∧
    (∀ (fuel : Nat) (p : Pgm) (h : Heap) (decl : FunDecl) (args : List Addr)
      (locals : Locals) (v : Addr) (h' : Heap) (l' : Locals),
      decl.num_params = args.length →
      decl.self_ = false →
      bindParams decl.params args [] = some locals →
      (exec fuel p h locals decl.body 0 = .ok (.ret v, h', l') →
        call_source_fun (fuel + 1) p h decl args = .ok (v, h')) ∧
      (exec fuel p h locals decl.body 0 = .ok (.val v, h', l') →
        call_source_fun (fuel + 1) p h decl args = .ok (v, h'))) ∧
    (∀ (fuel : Nat) (p : Pgm) (h : Heap) (decl : FunDecl) (a0 : Addr)
      (rest : List Addr) (locals : Locals) (v : Addr) (h' : Heap) (l' : Locals),
      decl.num_params = (a0 :: rest).length →
      decl.self_ = true →
      bindParams decl.params rest (insertA "self" a0 []) = some locals →
      (exec fuel p h locals decl.body 0 = .ok (.ret v, h', l') →
        call_source_fun (fuel + 1) p h decl (a0 :: rest) = .ok (v, h')) ∧
      (exec fuel p h locals decl.body 0 = .ok (.val v, h', l') →
        call_source_fun (fuel + 1) p h decl (a0 :: rest) = .ok (v, h'))) ∧
    (∀ (fuel : Nat) (p : Pgm) (h : Heap) (l : Locals) (object : Expr) (field : String)
      (rv : Addr) (op : AssignOp) (a : Addr) (h' : Heap) (l' : Locals),
      eval fuel p h l object = .ok (.ret a, h', l') →
      assign (fuel + 1) p h l (.fieldSelect object field) rv op = .ok (.ret a, h', l')) ∧
    (∀ (fuel : Nat) (p : Pgm) (h : Heap) (l : Locals) (lhs rhs : Expr) (op : AssignOp)
      (rv : Addr) (h₁ : Heap) (l₁ : Locals),
      eval fuel p h l rhs = .ok (.val rv, h₁, l₁) →
      execStmt (fuel + 1) p h l (.assign lhs rhs op) = assign fuel p h₁ l₁ lhs rv op) ∧
    (∀ (fuel : Nat) (p : Pgm) (h : Heap) (l : Locals) (v : String)
      (args : List (Option String × Expr)) (a : Addr) (h' : Heap) (l' : Locals),
      lookupA l v = none →
      lookupA p.top_level_funs v = none →
      eval fuel p h l (.var v) = .ok (.ret a, h', l') →
      eval (fuel + 1) p h l (.call (.var v) args) = .ok (.ret a, h', l')) ∧
    (∀ (fuel : Nat) (p : Pgm) (h : Heap) (l : Locals) (cond : Expr) (ss : List Stmt)
      (rest : List (Expr × List Stmt)) (els : Option (List Stmt)) (c : Addr)
      (h₁ : Heap) (l₁ : Locals),
      eval fuel p h l cond = .ok (.val c, h₁, l₁) →
      c = p.true_alloc →
      evalIfBranches (fuel + 1) p h l ((cond, ss) :: rest) els = exec fuel p h₁ l₁ ss 0) ∧
    (∀ (fuel : Nat) (p : Pgm) (h : Heap) (l : Locals) (stmts : List Stmt),
      evalIfBranches (fuel + 1) p h l [] (some stmts) = exec fuel p h l stmts 0) := by
  refine ⟨?_, ?_, ?_, ?_, ?_, ?_, ?_, ?_, ?_, ?_, ?_, ?_, ?_, ?_, ?_, ?_, ?_, ?_, ?_, ?_,
    ?_, ?_, ?_, ?_, ?_, ?_, ?_, ?_, ?_, ?_, ?_, ?_, ?_, ?_, ?_, ?_, ?_, ?_, ?_, ?_, ?_,
    ?_, ?_, ?_, ?_, ?_⟩
  · intro fuel p h l object field a h' l' hret
    rw [eval]
    simp [valBind, hret]
  · intro fuel p h l v args fval hv
    rw [eval]
    simp [hv]
  · intro fuel p h l v args f a h' l' hl hf hargs
    rw [eval]
    simp [hl, hf, hargs]
  · intro fuel p h l ty field args tc c cs funs f a h' l' hty hfd hcu hfuns hf hargs
    rw [eval]
    simp [hty, hfd, hcu, hfuns, hf, hargs]
  · intro fuel p h l object field args a h' l' hnu hret
    cases object <;>
      first
        | exact absurd rfl (hnu _)
        | (rw [eval]
           simp [valBind, hret]
           all_goals
             intros
             rename_i hh
             exact Expr.noConfusion hh)
  · intro fuel p h l object field args ov h₁ l₁ object_tag funs f a h' l' hnu hobj
      hread hfuns hf hargs
    cases object <;>
      first
        | exact absurd rfl (hnu _)
        | (rw [eval]
           simp [valBind, hobj, hread, hfuns, hf, hargs]
           all_goals
             intros
             rename_i hh
             exact Expr.noConfusion hh)
  · intro fuel p h l ty args
    rfl
  · intro fuel p h l fn args a h₁ l₁ h1 h2 h3 hret
    cases fn <;>
      first
        | exact absurd rfl (h1 _)
        | exact absurd rfl (h2 _ _)
        | exact absurd rfl (h3 _)
        | (rw [eval]
           simp [valBind, hret]
           all_goals
             intros
             rename_i hh
             exact Expr.noConfusion hh)
  · intro fuel p h l fval args idx f a h' l' ht hidx hf hargs
    rw [callDispatch]
    simp [ht, hidx, hf, hargs, TOP_FUN_TYPE_TAG, CONSTR_TYPE_TAG]
  · intro fuel p h l constr_tag args n a h' l' hfields hn hargs
    rw [allocate_object_from_tag]
    simp [hfields, hn, hargs]
  · intro fuel p h l constr_tag args fns a h' l' hfields hargs
    rw [allocate_object_from_tag]
    simp [hfields, hargs]
  · intro fuel p h l name e1 rest assertUnnamed acc a h' l' hflag hret
    rw [evalArgs]
    simp [hflag, valBindP, hret]
  · intro fuel p h l nm e1 rest acc a h' l' hret
    rw [evalNamedArgs]
    simp [valBindP, hret]
  · intro fuel p h l parts a h' l' hsp
    rw [eval]
    simp [hsp]
  · intro fuel p h l e1 rest bytes a h' l' hret
    rw [evalStringParts]
    simp [valBindP, hret]
  · intro fuel p h l left right op a h' l' hret
    rw [eval]
    simp [valBind, hret]
  · intro fuel p h l left right op lv h₁ l₁ a h' l' hl hret
    rw [eval]
    simp [valBind, hl, hret]
  · intro fuel p h l op e1 a h' l' hret
    rw [eval]
    simp [valBind, hret]
  · intro fuel p h l arr idx a h' l' hret
    rw [eval]
    simp [valBind, hret]
  · intro fuel p h l arr idx av h₁ l₁ a h' l' harr hret
    rw [eval]
    simp [valBind, harr, hret]
  · intro fuel p h l exprs shape tag first names0 h₂ h₃ a h' l' hsh htag hw1 hhead
      hfirst hw2 hnames hloop
    rw [eval]
    simp [allocate, hsh, htag, hw1, hhead, hfirst, hw2, hnames, hloop]
  · intro fuel p h l exprs shape tag first h₂ a h' l' hsh htag hw1 hhead hfirst hloop
    rw [eval]
    simp [allocate, hsh, htag, hw1, hhead, hfirst, hloop]
  · intro fuel p h l record exprs nm rest name_idx e1 a h' l' hfind hret
    rw [evalRecordNamed]
    simp [hfind, valBindP, hret]
  · intro fuel p h l record nm e1 rest idx a h' l' hret
    rw [evalRecordUnnamed]
    simp [valBindP, hret]
  · intro fuel p h l e1 a h' l' hret
    rw [eval]
    simp [valBind, hret]
  · intro fuel p h l scrutinee alts a h' l' hret
    rw [eval]
    simp [valBind, hret]
  · intro fuel p h l scrut pattern rhs rest binds h₁ hbind
    rw [evalMatchAlts]
    simp [hbind]
  · intro fuel p h l branches els
    rfl
  · intro fuel p h l cond ss rest els a h' l' hret
    rw [evalIfBranches]
    simp [valBind, hret]
  · intro fuel p h l stmt rest rv a h' l' hstmt
    rw [exec]
    simp [hstmt]
  · intro fuel p h l lhs rhs a h' l' hret
    rw [execStmt]
    simp [valBind, hret]
  · intro fuel p h l lhs rhs op a h' l' hret
    rw [execStmt]
    simp [valBind, hret]
  · intro fuel p h l e1
    rfl
  · intro fuel p h l cond body
    rfl
  · intro fuel p h l cond body a h' l' hret
    rw [whileLoop]
    simp [valBind, hret]
  · intro fuel p h l cond body c h₁ l₁ a h₂ l₂ hc hne hbody
    rw [whileLoop]
    simp [valBind, hc, hne, hbody]
  · intro fuel p h l v lo hi inclusive body a h' l' hret
    rw [execStmt]
    simp [valBind, hret]
  · intro fuel p h l v lo hi inclusive body lo_v h₁ l₁ lo_w a h' l' hlo hlow hret
    rw [execStmt]
    simp [valBind, hlo, hlow, hret]
  · intro fuel p h l v i hi inclusive body a h₂ l₂ hcond hbody
    rw [forLoop, if_pos hcond]
    simp [allocate_i32, hbody]
  · intro fuel p h decl args locals v h' l' hnp hself hbind
    constructor <;> intro hexec <;>
      (rw [call_source_fun.eq_def]; simp [hnp, hself, hbind, hexec])
  · intro fuel p h decl a0 rest locals v h' l' hnp hself hbind
    constructor <;> intro hexec <;>
      (rw [call_source_fun.eq_def]; simp [hnp, hself, hbind, hexec])
  · intro fuel p h l object field rv op a h' l' hret
    rw [assign]
    simp [valBind, hret]
  · intro fuel p h l lhs rhs op rv h₁ l₁ hrhs
    rw [execStmt]
    simp [valBind, hrhs]
  · intro fuel p h l v args a h' l' hl hf hret
    rw [eval]
    simp [hl, hf, valBind, hret]
  · intro fuel p h l cond ss rest els c h₁ l₁ hc htrue
    rw [evalIfBranches]
    simp [valBind, hc, htrue]
  · intro fuel p h l stmts
    rfl

/-- C5 witness: a `return` in the first statement of a sequence propagates
past the remaining statements unchanged, with the same address. -/
theorem c5_ret_propagates_witness :
    exec 5 pgmBool [] [] [.expr (.ret (.int 7)), .expr (.int 9)] 0 =
      .ok (.ret 0, [0, 7], []) :=
  c5_ret_propagates_unchanged.2.2.2.2.2.2.2.2.2.2.2.2.2.2.2.2.2.2.2.2.2.2.2.2.2.2.2.2.2.1
    4 pgmBool [] [] (.expr (.ret (.int 7))) [.expr (.int 9)] 0 0 [0, 7] []
    (by decide)

/-- C9 (amended): truth is tested by address equality against the canonical
allocations, but not uniformly against `True`: an `if` branch is taken
exactly when the condition's address equals the canonical `True` allocation,
and `==` yields `True` exactly when the `__eq` result's address equals the
canonical `True` allocation; the `while` loop, however, tests against
`False`: its body is re-entered exactly when the condition's address
differs from the canonical `False` allocation, so a non-canonical address
(such as a freshly allocated `True`) re-enters the body. -/
theorem c9_truth_is_address_equality :
    (∀ (fuel : Nat) (p : Pgm) (h : Heap) (l : Locals) (cond : Expr)
      (ss : List Stmt) (rest : List (Expr × List Stmt)) (els : Option (List Stmt))
      (c : Addr) (h₁ : Heap) (l₁ : Locals),
      eval fuel p h l cond = .ok (.val c, h₁, l₁) →
      (c = p.true_alloc →
        evalIfBranches (fuel + 1) p h l ((cond, ss) :: rest) els = exec fuel p h₁ l₁ ss 0) ∧
      (c ≠ p.true_alloc →
        evalIfBranches (fuel + 1) p h l ((cond, ss) :: rest) els =
          evalIfBranches fuel p h₁ l₁ rest els)) ∧
    (∀ (fuel : Nat) (p : Pgm) (h : Heap) (l : Locals) (cond : Expr)
      (body : List Stmt) (c : Addr) (h₁ : Heap) (l₁ : Locals),
      eval fuel p h l cond = .ok (.val c, h₁, l₁) →
      (c = p.false_alloc →
        whileLoop (fuel + 1) p h l cond body = .ok (.val 0, h₁, l₁)) ∧
      (∀ (a : Addr) (h₂ : Heap) (l₂ : Locals), c ≠ p.false_alloc →
        exec fuel p h₁ l₁ body 0 = .ok (.ret a, h₂, l₂) →
        whileLoop (fuel + 1) p h l cond body = .ok (.ret a, h₂, l₂))) ∧
    (∀ (fuel : Nat) (p : Pgm) (h : Heap) (l : Locals) (left right : Expr)
      (lv rv : Addr) (h₁ : Heap) (l₁ : Locals) (h₂ : Heap) (l₂ : Locals)
      (r : Addr) (h₃ : Heap),
      eval (fuel + 1) p h l left = .ok (.val lv, h₁, l₁) →
      eval (fuel + 1) p h₁ l₁ right = .ok (.val rv, h₂, l₂) →
      call_method fuel p h₂ lv "__eq" [rv] = .ok (r, h₃) →
      eval (fuel + 2) p h l (.binOp left right .equal) =
        .ok (.val (p.bool_alloc (decide (r = p.true_alloc))), h₃, l₂)) := by
  refine ⟨?_, ?_, ?_⟩
  · intro fuel p h l cond ss rest els c h₁ l₁ hc
    constructor
    · intro htrue
      rw [evalIfBranches]
      simp [valBind, hc, htrue]
    · intro hfalse
      rw [evalIfBranches]
      simp [valBind, hc, hfalse]
  · intro fuel p h l cond body c h₁ l₁ hc
    constructor
    · intro hfa
      rw [whileLoop]
      simp [valBind, hc, hfa]
    · intro a h₂ l₂ hne hbody
      rw [whileLoop]
      simp [valBind, hc, hne, hbody]
  · intro fuel p h l left right lv rv h₁ l₁ h₂ l₂ r h₃ hl hr hm
    rw [eval]
    simp only [valBind, hl, hr]
    rw [eq]
    simp [hm]

/-- C9 witness: `x == y` over a source `__eq` that returns its second
argument; the result address (2) differs from the canonical `True`
allocation, so `==` yields `False`. -/
theorem c9_truth_is_address_equality_witness :
    eval 10 pgmEq [0, 7, 0, 9] [("x", 0), ("y", 2)] (.binOp (.var "x") (.var "y") .equal)
      = .ok (.val (pgmEq.bool_alloc (decide ((2 : Addr) = pgmEq.true_alloc))),
          [0, 7, 0, 9], [("x", 0), ("y", 2)]) :=
  c9_truth_is_address_equality.2.2 8 pgmEq [0, 7, 0, 9] [("x", 0), ("y", 2)]
    (.var "x") (.var "y") 0 2 [0, 7, 0, 9] [("x", 0), ("y", 2)] [0, 7, 0, 9]
    [("x", 0), ("y", 2)] 2 [0, 7, 0, 9] (by decide) (by decide) (by decide)

/-- C9 counterexample: the claim says a `while` body is re-entered exactly
when the condition's address equals the canonical `True` allocation.  Here
the condition is address 2 — a freshly allocated cell carrying `True`'s
tag 8, not the canonical `True` at address 1 — and the body still runs
(observable through the `return` it propagates). -/
theorem c9_while_reenters_on_noncanonical :
    execStmt 8 pgmBool [7, 8, 8] [("c", 2)] (.while_ (.var "c") [.expr (.ret (.int 5))])
      = .ok (.ret 3, [7, 8, 8, 0, 5], [("c", 2)]) ∧
    (2 : Addr) ≠ pgmBool.true_alloc ∧
    heapRead [7, 8, 8] 2 = some 8 :=
  ⟨by decide, by decide, by decide⟩

/-- C10: a `for` statement whose (exclusive) range is empty still deletes
the binding of its iteration variable on normal completion: a pre-existing
outer binding of the same name is destroyed even though the body never
ran. -/
theorem c10_for_empty_range_destroys_outer_binding
    (fuel : Nat) (p : Pgm) (l : Locals) (v : String) (a : Addr) (n m : Int)
    (body : List Stmt)
    (hbound : lookupA l v = some a)
    (hempty : ¬ toI32 n < toI32 m) :
    execStmt (fuel + 2) p [] l (.for_ v (.range (.int n) (.int m) false) body)
      = .ok (.val 0, [I32_TYPE_TAG, i32ToWord n, I32_TYPE_TAG, i32ToWord m], eraseA v l)
      ∧ lookupA (eraseA v l) v = none := by
  constructor
  · rw [execStmt]
    simp [eval, valBind, allocate_i32, heapRead]
    rw [forLoop, wordAsI32_i32ToWord, wordAsI32_i32ToWord]
    simp [hempty]
  · exact lookupA_eraseA_self v l

/-- C10 witness: `for x in 3..3 { }` with `x` bound outside the loop. -/
theorem c10_for_empty_range_witness :
    execStmt 4 pgmBool [] [("x", 42)] (.for_ "x" (.range (.int 3) (.int 3) false) [])
      = .ok (.val 0, [I32_TYPE_TAG, i32ToWord 3, I32_TYPE_TAG, i32ToWord 3],
          eraseA "x" [("x", 42)])
      ∧ lookupA (eraseA "x" [("x", 42)]) "x" = none :=
  c10_for_empty_range_destroys_outer_binding 2 pgmBool [("x", 42)] "x" 42 3 3 []
    (by decide) (by decide)

end Fir

